import Mathlib

/-!
Verification development for the GEPA prompt-optimization driver
(`OTHERS/bin/gepa.py`) and its validators (`pipeline/validators.py`,
`data_utils/json_strict.py`).

Python dictionaries mapping objective names to floats are modelled as
association lists `List (String × ℚ)` with the Python `dict.get(k, 0.0)`
default-lookup; floats are modelled as rationals.  Python dicts preserve
insertion order, so association lists (unique keys, insertion order) are a
faithful model.
-/

namespace Gepa

/-- A score vector: Python `Dict[str, float]`. -/
abbrev ScoreVec := List (String × ℚ)

/-- `d.get(k, 0.0)` on a Python dict. -/
def getD (v : ScoreVec) (k : String) : ℚ :=
  (v.lookup k).getD 0

/-- `DOMINANCE_EPS = 0.02` from the CONFIG block of gepa.py. -/
def DOMINANCE_EPS : ℚ := 2/100

/-- `MINIBATCH_SIZE = 8` from the CONFIG block of gepa.py. -/
def MINIBATCH_SIZE : Nat := 8

/-- `NPARETO = 20` from the CONFIG block of gepa.py. -/
def NPARETO : Nat := 20

/-- `MAX_CANDIDATES = 40` from the CONFIG block of gepa.py. -/
def MAX_CANDIDATES : Nat := 40

/-- `MIN_POOL_SIZE = 3` from the CONFIG block of gepa.py. -/
def MIN_POOL_SIZE : Nat := 3

/-- `ROLLOUT_BUDGET = 700` from the CONFIG block of gepa.py. -/
def ROLLOUT_BUDGET : Nat := 700

/-- `MODULE_NAMES = ["passage", "questions"]` from gepa.py. -/
def MODULE_NAMES : List String := ["passage", "questions"]

/-- `dominates(a, b, eps)` from gepa.py:
`keys = set(a)|set(b)`;
`ge_all = all(a.get(k,0.0) >= b.get(k,0.0) - eps for k in keys)`;
`gt_some = any(a.get(k,0.0) > b.get(k,0.0) + eps for k in keys)`;
returns `ge_all and gt_some`.  Iteration over the key set is modelled by
iterating over the concatenation of both key lists: `all`/`any` over the
concatenation agree with `all`/`any` over the set of keys. -/
def dominates (a b : ScoreVec) (eps : ℚ := DOMINANCE_EPS) : Bool :=
  let keys := a.map Prod.fst ++ b.map Prod.fst
  (keys.all fun k => decide (getD b k - eps ≤ getD a k)) &&
  (keys.any fun k => decide (getD b k + eps < getD a k))

/-- `aggregate_scores(results)` from gepa.py, applied to the list of the
`"scores"` dicts of the rollout results: empty input gives the empty dict;
otherwise, for each objective name appearing in any result, the mean over
all results of `r.get("scores", {}).get(k, 0.0)`.  The key set is again
modelled by the concatenation of the key lists; a duplicated key yields
the same mean, so lookups on the result agree with the Python dict. -/
def aggregate_scores (results : List ScoreVec) : ScoreVec :=
  match results with
  | [] => []
  | _ =>
    let keys := (results.map (fun r => r.map Prod.fst)).flatten
    keys.map fun k => (k, (results.map fun r => getD r k).sum / results.length)

/-- The score ledger `records : { candidate_id: { topic: scores_dict } }`. -/
abbrev Records := List (String × List (String × ScoreVec))

/-- The `avg_vectors` computation inside `build_pareto_front`: per candidate,
the empty dict if it has no recorded topics, else `aggregate_scores` over its
topic score dicts (each wrapped as `{"scores": s}` in the source, which our
`aggregate_scores` consumes directly). -/
def avg_vectors (records : Records) : List (String × ScoreVec) :=
  records.map fun p =>
    (p.1, if p.2.isEmpty then [] else aggregate_scores (p.2.map Prod.snd))

/-- `build_pareto_front(records)` from gepa.py: keep every candidate id whose
average vector is not dominated (at the default epsilon) by the average
vector of a distinct candidate. -/
def build_pareto_front (records : Records) : List String :=
  let avg := avg_vectors records
  (avg.filter fun a =>
    ! avg.any fun b => decide (a.1 ≠ b.1) && dominates b.2 a.2).map Prod.fst

/-! ### Claims C1 and C2: dominance and the Pareto front -/

/-- First vector of the ε-dominance cycle used against claim C1. -/
def vecA : ScoreVec := [("x", 1/2), ("y", 1/2), ("z", 1/2)]

/-- Second vector of the ε-dominance cycle used against claim C1. -/
def vecB : ScoreVec := [("x", 47/100), ("y", 103/200), ("z", 103/200)]

/-- Third vector of the ε-dominance cycle used against claim C1. -/
def vecC : ScoreVec := [("x", 97/200), ("y", 97/200), ("z", 53/100)]

/-- A non-empty ledger whose three candidates dominate each other cyclically
at the default tolerance `DOMINANCE_EPS = 0.02`. -/
def cycleLedger : Records :=
  [("A", [("t", vecA)]), ("B", [("t", vecB)]), ("C", [("t", vecC)])]

lemma avg_vectors_cycleLedger :
    avg_vectors cycleLedger = [("A", vecA), ("B", vecB), ("C", vecC)] := by
  simp [avg_vectors, aggregate_scores, cycleLedger, vecA, vecB, vecC, getD, List.lookup]

lemma dominates_vecB_vecA : dominates vecB vecA = false := by
  simp [dominates, getD, vecA, vecB, DOMINANCE_EPS, List.lookup]; norm_num

lemma dominates_vecC_vecA : dominates vecC vecA = true := by
  simp [dominates, getD, vecA, vecC, DOMINANCE_EPS, List.lookup]; norm_num

lemma dominates_vecA_vecB : dominates vecA vecB = true := by
  simp [dominates, getD, vecA, vecB, DOMINANCE_EPS, List.lookup]; norm_num

lemma dominates_vecA_vecC : dominates vecA vecC = false := by
  simp [dominates, getD, vecA, vecC, DOMINANCE_EPS, List.lookup]; norm_num

lemma dominates_vecB_vecC : dominates vecB vecC = true := by
  simp [dominates, getD, vecB, vecC, DOMINANCE_EPS, List.lookup]; norm_num

/-- C1 (counterexample): the claim "build_pareto_front returns a non-empty
list for every non-empty ledger" is false.  In the concrete ledger
`cycleLedger` the three aggregate vectors dominate each other cyclically
under the ε-relaxed relation (C dominates A, A dominates B, B dominates C at
ε = 0.02), so every candidate is dominated and the front is empty. -/
theorem build_pareto_front_empty_on_cycleLedger :
    cycleLedger ≠ [] ∧ build_pareto_front cycleLedger = [] := by
  constructor
  · simp [cycleLedger]
  · simp [build_pareto_front, avg_vectors_cycleLedger, dominates_vecB_vecA,
      dominates_vecC_vecA, dominates_vecA_vecB, dominates_vecA_vecC, dominates_vecB_vecC]

/-- C1 (amended): every identifier returned by `build_pareto_front` is a
candidate of the ledger whose aggregate (per-objective mean) vector is not
dominated, at the default epsilon, by any other candidate's aggregate
vector; the front can however be empty for a non-empty ledger. -/
theorem build_pareto_front_sound (records : Records) (cid : String)
    (h : cid ∈ build_pareto_front records) :
    ∃ aVec, (cid, aVec) ∈ avg_vectors records ∧
      ∀ q ∈ avg_vectors records, q.1 ≠ cid →
        dominates q.2 aVec DOMINANCE_EPS = false := by
  unfold build_pareto_front at h
  obtain ⟨a, ha, rfl⟩ := List.mem_map.mp h
  obtain ⟨hmem, hp⟩ := List.mem_filter.mp ha
  refine ⟨a.2, by simpa using hmem, ?_⟩
  intro q hq hne
  rw [Bool.not_eq_true'] at hp
  have hq' := List.any_eq_false.mp hp q hq
  simp only [Bool.and_eq_true, decide_eq_true_eq, not_and] at hq'
  rcases hb : dominates q.2 a.2 DOMINANCE_EPS with _ | _
  · rfl
  · exact absurd hb (hq' (Ne.symm hne))

/-- Witness for the amended C1 on a concrete one-candidate ledger: `"A"` is
in the front, and the theorem applies to it. -/
theorem build_pareto_front_sound_witness :
    ∃ aVec, ("A", aVec) ∈ avg_vectors [("A", [("t", vecA)])] ∧
      ∀ q ∈ avg_vectors [("A", [("t", vecA)])], q.1 ≠ "A" →
        dominates q.2 aVec DOMINANCE_EPS = false :=
  build_pareto_front_sound [("A", [("t", vecA)])] "A"
    (by simp [build_pareto_front, avg_vectors, aggregate_scores, vecA])

/-- C2 (confirmed): for every pair of score vectors and tolerance ε ≥ 0,
`dominates(A,B,ε)` and `dominates(B,A,ε)` are never both true when A and B
differ beyond the ε tolerance on some objective.  (The code satisfies an
even stronger statement: the two can never both be true, because
`dominates(B,A,ε)` forces every coordinate of A to be ≤ B + ε while
`dominates(A,B,ε)` demands a coordinate strictly above B + ε.) -/
theorem dominates_antisymmetric (a b : ScoreVec) (eps : ℚ) (heps : 0 ≤ eps)
    (hdiff : ∃ k, eps < |getD a k - getD b k|) :
    ¬(dominates a b eps = true ∧ dominates b a eps = true) := by
  rintro ⟨hab, hba⟩
  simp only [dominates, Bool.and_eq_true, List.all_eq_true, List.any_eq_true,
    decide_eq_true_eq] at hab hba
  obtain ⟨k, hk, hlt⟩ := hab.2
  have hk' : k ∈ b.map Prod.fst ++ a.map Prod.fst := by
    rcases List.mem_append.mp hk with h | h
    · exact List.mem_append.mpr (Or.inr h)
    · exact List.mem_append.mpr (Or.inl h)
  have hle := hba.1 k hk'
  linarith

/-- Witness for C2 at a concrete input: ε = 0, A = {"x": 1}, B = {}. -/
theorem dominates_antisymmetric_witness :
    (0 : ℚ) ≤ 0 ∧ (∃ k, (0:ℚ) < |getD [("x", 1)] k - getD [] k|) ∧
    ¬(dominates [("x", 1)] [] 0 = true ∧ dominates [] [("x", 1)] 0 = true) :=
  ⟨le_refl 0, ⟨"x", by norm_num [getD, List.lookup]⟩,
    dominates_antisymmetric _ _ _ (le_refl 0) ⟨"x", by norm_num [getD, List.lookup]⟩⟩

/-! ### Claim C4: `validate_questions_structure` (pipeline/validators.py) -/

/-- A question record, as consumed by the validators.  Each field models the
corresponding key of the Python dict; `none` models both a missing key and a
`None` value (the code treats them identically at every use site). -/
structure Question where
  id : Option String := none
  question_text : Option String := none
  answer : Option String := none
  options : List String := []
  rationale : Option String := none
deriving Repr, DecidableEq

/-- Python truthiness test `not q.get(field)` for an optional string field:
true when the key is absent, `None`, or the empty string. -/
def strFalsy (o : Option String) : Bool :=
  o.isNone || o == some ""

/-- The per-question loop of `validate_questions_structure`: returns
`(ok_count, raw_traces, fb_traces)`.  Each question appends its raw/feedback
entries in order: missing id/text is reported first, then a missing or
`None` answer; otherwise it counts as valid. -/
def vqsLoop : List Question → Nat × List String × List String
  | [] => (0, [], [])
  | q :: rest =>
    let r := vqsLoop rest
    if strFalsy q.id || strFalsy q.question_text then
      (r.1, ("question_missing_fields:" ++ q.id.getD "?") :: r.2.1,
        "Some questions missing ID or text \x27id\x27 and \x27question_text\x27." :: r.2.2)
    else if q.answer.isNone then
      (r.1, ("question_" ++ q.id.getD "None" ++ " missing_answer") :: r.2.1,
        ("Question " ++ q.id.getD "?" ++ " missing answer.") :: r.2.2)
    else (r.1 + 1, r.2.1, r.2.2)

/-- `validate_questions_structure(questions_list)` from validators.py.
`none` models a non-list argument (e.g. `None`); returns
`(score, raw_traces, fb_traces)`.  A missing/empty/non-list argument scores
the 0.3 floor with one feedback entry; otherwise the score is
`ok_count / total` and a summary feedback line is appended. -/
def validate_questions_structure : Option (List Question) → ℚ × List String × List String
  | none =>
    (3/10, ["questions=missing_or_not_list"],
      ["Questions missing or invalid JSON. Require a valid JSON array of questions."])
  | some [] =>
    (3/10, ["questions=missing_or_not_list"],
      ["Questions missing or invalid JSON. Require a valid JSON array of questions."])
  | some qs =>
    let r := vqsLoop qs
    let total := qs.length
    let score : ℚ := if total = 0 then 3/10 else (r.1 : ℚ) / (total : ℚ)
    let fb :=
      if score < 1 then
        r.2.2 ++ ["Only " ++ toString r.1 ++ "/" ++ toString total ++
          " questions valid. Ensure all have complete fields."]
      else r.2.2 ++ ["All questions valid and well-structured."]
    (score, r.2.1, fb)

lemma vqsLoop_no_answer (qs : List Question) (h : ∀ q ∈ qs, q.answer = none) :
    (vqsLoop qs).1 = 0 ∧ (vqsLoop qs).2.2.length = qs.length := by
  induction qs with
  | nil => simp [vqsLoop]
  | cons q rest ih =>
    have hq : q.answer = none := h q (List.mem_cons_self q rest)
    have ih' := ih fun p hp => h p (List.mem_cons_of_mem q hp)
    by_cases hfal : (strFalsy q.id || strFalsy q.question_text) = true
    · simp [vqsLoop, hfal, ih'.1, ih'.2]
    · simp [vqsLoop, hfal, hq, ih'.1, ih'.2]

/-- A concrete question with id and text but no answer. -/
def qNoAnswer : Question := { id := some "q1", question_text := some "t" }

/-- C4 (counterexample): for the concrete 3-item list in which every item
lacks the `answer` field, `validate_questions_structure` returns score 0
(not the 0.3 floor — the floor applies only to a missing or non-list
argument) and 4 feedback entries (one per question plus the
"Only 0/3 questions valid" summary), not 3. -/
theorem validate_questions_missing_answer_counterexample :
    ¬((validate_questions_structure (some [qNoAnswer, qNoAnswer, qNoAnswer])).1 = 3/10) ∧
    ¬((validate_questions_structure
        (some [qNoAnswer, qNoAnswer, qNoAnswer])).2.2.length = 3) := by
  refine ⟨?_, ?_⟩ <;>
    simp [validate_questions_structure, vqsLoop, qNoAnswer, strFalsy] <;>
    norm_num

/-- C4 (amended): for every list of exactly 3 question records in which
every item lacks the `answer` field, `validate_questions_structure` returns
score 0 and produces exactly 4 feedback entries (one per question plus the
final summary line). -/
theorem validate_questions_missing_answer (qs : List Question)
    (hlen : qs.length = 3) (h : ∀ q ∈ qs, q.answer = none) :
    (validate_questions_structure (some qs)).1 = 0 ∧
    (validate_questions_structure (some qs)).2.2.length = 4 := by
  obtain ⟨hok, hfb⟩ := vqsLoop_no_answer qs h
  match qs, hlen with
  | q1 :: q2 :: q3 :: [], _ =>
    simp only [validate_questions_structure]
    simp only [List.length_cons, List.length_nil] at hok hfb ⊢
    rw [hok]
    norm_num [hfb]

/-- Witness for the amended C4 at the concrete 3-item list. -/
theorem validate_questions_missing_answer_witness :
    (validate_questions_structure (some [qNoAnswer, qNoAnswer, qNoAnswer])).1 = 0 ∧
    (validate_questions_structure (some [qNoAnswer, qNoAnswer, qNoAnswer])).2.2.length = 4 :=
  validate_questions_missing_answer _ rfl (by intro q hq; fin_cases hq <;> rfl)

/-! ### Claim C6: feedback and Pareto topic sets in `gepa_optimize` -/

/-- `dfeedback = topics[:min(len(topics), 200)]` from `gepa_optimize` (the
`topics` argument is the list after the in-place shuffle; the claim
quantifies over all input lists, so the shuffle is absorbed into the
quantifier). -/
def dfeedback (topics : List String) : List String :=
  topics.take (min topics.length 200)

/-- `dpareto = topics[:min(len(topics), dpareto_size)]` from
`gepa_optimize`, with `dpareto_size = NPARETO` by default. -/
def dpareto (topics : List String) (dparetoSize : Nat := NPARETO) : List String :=
  topics.take (min topics.length dparetoSize)

/-- C6 (counterexample): the extended-evaluation topic set is not held out
from minibatch sampling.  For the concrete topics list `["t1"]`, the topic
`"t1"` belongs both to `dpareto` (at the default size) and to `dfeedback`:
both are prefixes of the same list. -/
theorem dpareto_not_heldout_counterexample :
    "t1" ∈ dpareto ["t1"] NPARETO ∧ "t1" ∈ dfeedback ["t1"] := by
  constructor <;> simp [dpareto, dfeedback, NPARETO]

/-- C6 (amended): far from being disjoint, the Pareto topic set is always a
subset of the feedback topic set whenever its configured size is at most
200 (both are initial segments of the same shuffled topics list). -/
theorem dpareto_subset_dfeedback (topics : List String) (n : Nat) (hn : n ≤ 200) :
    dpareto topics n ⊆ dfeedback topics := by
  unfold dpareto dfeedback
  intro x hx
  have h1 : min topics.length n ≤ min topics.length 200 := by omega
  have h2 : topics.take (min topics.length n)
      = (topics.take (min topics.length 200)).take (min topics.length n) := by
    rw [List.take_take, Nat.min_eq_left h1]
  rw [h2] at hx
  exact List.take_subset _ _ hx

/-- Witness for the amended C6 at the default Pareto size. -/
theorem dpareto_subset_dfeedback_witness :
    NPARETO ≤ 200 ∧ dpareto ["t1"] NPARETO ⊆ dfeedback ["t1"] :=
  ⟨by norm_num [NPARETO], dpareto_subset_dfeedback ["t1"] NPARETO (by norm_num [NPARETO])⟩

/-! ### Claims C7 and C8: the candidate pool (`CandidatePool`) -/

/-- A candidate: Python dict built by `new_candidate_from_base` and mutated
by the driver.  `prompts` maps module name to prompt text; `scores` caches
the last aggregated score vector. -/
structure Candidate where
  id : String
  prompts : List (String × String)
  scores : ScoreVec := []
  meta : List (String × String) := []
  ancestry : List String := []
  traces : List String := []
  fb_traces : List String := []
deriving Repr, DecidableEq

instance : Inhabited Candidate := ⟨{ id := "", prompts := [] }⟩

/-- The pool dict `self.pool : Dict[str, Dict]`, as an insertion-ordered
association list keyed by `Candidate.id`. -/
abbrev Pool := List Candidate

/-- `self.pool[cand["id"]] = cand`: Python dict assignment keeps the original
position when the key exists, else appends. -/
def poolInsert (pool : Pool) (c : Candidate) : Pool :=
  if pool.any fun d => d.id == c.id then
    pool.map fun d => if d.id = c.id then c else d
  else pool ++ [c]

/-- The sort key of `_trim_pool`:
`cand.get("scores", {}).get("passage", 0.0)`. -/
def passageScore (c : Candidate) : ℚ :=
  getD c.scores "passage"

/-- `sorted(scored, key=lambda x: x[1])` of `_trim_pool`: a stable ascending
sort by `passageScore` (Python's sort is stable; so is insertion sort). -/
def sortByScore (pool : Pool) : Pool :=
  pool.insertionSort fun a b => passageScore a ≤ passageScore b

/-- The `while len(self.pool) > self.max_size: rem = scored_sorted.pop(0)[0];
if rem in self.pool: del self.pool[rem]` loop of `_trim_pool`, walking the
sorted victim list. -/
def trimGo (maxSize : Nat) : List Candidate → Pool → Pool
  | [], pool => pool
  | v :: vs, pool =>
    if maxSize < pool.length then
      trimGo maxSize vs (pool.filter fun c => c.id != v.id)
    else pool

/-- `_trim_pool` of `CandidatePool`: when over capacity, repeatedly evict
the candidate with the lowest `passage` score (stable order).  The
`except`-branch of the source (uniform random eviction) is reachable only
if sorting/lookup raises, which cannot happen for float scores, so the
deterministic branch is the whole behaviour. -/
def trim_pool (maxSize : Nat) (pool : Pool) : Pool :=
  if maxSize < pool.length then trimGo maxSize (sortByScore pool) pool else pool

/-- `add_candidate` of `CandidatePool`: insert by id, then trim. -/
def add_candidate (maxSize : Nat) (pool : Pool) (c : Candidate) : Pool :=
  trim_pool maxSize (poolInsert pool c)

lemma trimGo_length_le (maxSize : Nat) (vs : List Candidate) (pool : Pool)
    (hcover : ∀ c ∈ pool, ∃ v ∈ vs, c.id = v.id) :
    (trimGo maxSize vs pool).length ≤ maxSize := by
  induction vs generalizing pool with
  | nil =>
    have : pool = [] := by
      cases pool with
      | nil => rfl
      | cons c rest => exact absurd (hcover c (List.mem_cons_self c rest)) (by simp)
    simp [trimGo, this]
  | cons v vs ih =>
    unfold trimGo
    by_cases hlen : maxSize < pool.length
    · rw [if_pos hlen]
      refine ih _ fun c hc => ?_
      have hc' := List.mem_filter.mp hc
      obtain ⟨w, hw, hid⟩ := hcover c hc'.1
      rcases List.mem_cons.mp hw with rfl | hw'
      · exact absurd hid (by simpa using hc'.2)
      · exact ⟨w, hw', hid⟩
    · rw [if_neg hlen]
      omega

lemma sortByScore_perm (pool : Pool) : List.Perm (sortByScore pool) pool :=
  List.perm_insertionSort _ pool

lemma sortByScore_sorted (pool : Pool) :
    (sortByScore pool).Pairwise fun a b => passageScore a ≤ passageScore b := by
  haveI : IsTotal Candidate fun a b => passageScore a ≤ passageScore b :=
    ⟨fun a b => le_total _ _⟩
  haveI : IsTrans Candidate fun a b => passageScore a ≤ passageScore b :=
    ⟨fun _ _ _ => le_trans⟩
  exact List.sorted_insertionSort _ pool

lemma trim_pool_length_le (maxSize : Nat) (pool : Pool) :
    (trim_pool maxSize pool).length ≤ maxSize := by
  unfold trim_pool
  by_cases hlen : maxSize < pool.length
  · rw [if_pos hlen]
    refine trimGo_length_le _ _ _ fun c hc => ⟨c, ?_, rfl⟩
    exact (sortByScore_perm pool).mem_iff.mpr hc
  · rw [if_neg hlen]
    omega

lemma add_candidate_length_le (maxSize : Nat) (pool : Pool) (c : Candidate) :
    (add_candidate maxSize pool c).length ≤ maxSize :=
  trim_pool_length_le maxSize (poolInsert pool c)

lemma trim_pool_of_le (maxSize : Nat) (pool : Pool) (h : pool.length ≤ maxSize) :
    trim_pool maxSize pool = pool := by
  unfold trim_pool
  rw [if_neg (by omega)]

lemma poolInsert_fresh (pool : Pool) (c : Candidate)
    (h : ∀ d ∈ pool, d.id ≠ c.id) : poolInsert pool c = pool ++ [c] := by
  unfold poolInsert
  rw [if_neg]
  simp only [List.any_eq_true, beq_iff_eq, not_exists, not_and]
  exact fun d hd => h d hd

/-- Generic insertion-ordered dict assignment `m[k] = v` for association
lists (used for `records` and for prompt maps). -/
def assocSet {α : Type} (m : List (String × α)) (k : String) (v : α) :
    List (String × α) :=
  if m.any fun p => p.1 == k then
    m.map fun p => if p.1 = k then (k, v) else p
  else m ++ [(k, v)]

/-- `new_candidate_from_base(base_prompts)` from gepa.py; the fresh
`uuid.uuid4()` identifier is supplied by the caller's id oracle. -/
def new_candidate_from_base (base : List (String × String)) (id : String) :
    Candidate :=
  { id := id, prompts := base }

/-- The synthetic variation suffix of `ensure_min_pool`. -/
def VARIATION_SUFFIX : String := "\n(Variation: add connective markers.)"

/-- The id of the last pool entry, `list(pool.pool.keys())[-1]`. -/
def lastId (pool : Pool) : String :=
  (pool.map Candidate.id).getLastD ""

/-- `ensure_min_pool(n)` from `gepa_optimize`: while the pool holds fewer
than `n` candidates, clone a random existing candidate (chosen by the
`parentIdx` oracle) with a fresh id (the `freshId` oracle stands for
`uuid.uuid4()`) and a suffixed prompt set, or create one from the base
prompts when the pool is empty; each new id gets an empty `records` entry.
The structural `fuel` bounds the recursion; with pairwise-distinct fresh
ids, `fuel = n` is enough to reach size `n` (with colliding ids the Python
loop would not terminate at all). -/
def ensure_min_pool (base : List (String × String))
    (parentIdx : Nat → Nat) (freshId : Nat → String) (maxSize n : Nat) :
    Nat → Nat → Pool × Records → Pool × Records
  | 0, _, st => st
  | fuel + 1, k, (pool, records) =>
    if pool.length < n then
      match pool with
      | [] =>
        let c := new_candidate_from_base base (freshId k)
        let pool' := add_candidate maxSize [] c
        let records' := assocSet records (lastId pool') []
        ensure_min_pool base parentIdx freshId maxSize n fuel (k + 1) (pool', records')
      | p :: ps =>
        let parent := (p :: ps).getD (parentIdx k % (p :: ps).length) p
        let child : Candidate :=
          { parent with
            id := freshId k,
            prompts := parent.prompts.map fun q => (q.1, q.2 ++ VARIATION_SUFFIX) }
        let pool' := add_candidate maxSize (p :: ps) child
        let records' := assocSet records child.id []
        ensure_min_pool base parentIdx freshId maxSize n fuel (k + 1) (pool', records')
    else (pool, records)

lemma ensure_min_pool_length (base : List (String × String))
    (parentIdx : Nat → Nat) (freshId : Nat → String) (maxSize n : Nat)
    (hnmax : n ≤ maxSize) :
    ∀ (fuel k : Nat) (pool : Pool) (records : Records),
      (∀ i j, freshId i = freshId j → i = j) →
      (∀ j, k ≤ j → ∀ d ∈ pool, d.id ≠ freshId j) →
      n ≤ fuel + pool.length →
      n ≤ (ensure_min_pool base parentIdx freshId maxSize n fuel k
            (pool, records)).1.length := by
  intro fuel
  induction fuel with
  | zero =>
    intro k pool records _ _ hfu
    simpa [ensure_min_pool] using hfu
  | succ fuel ih =>
    intro k pool records hinj hfresh hfu
    unfold ensure_min_pool
    by_cases hlt : pool.length < n
    · rw [if_pos hlt]
      have hadd : ∀ (c : Candidate), c.id = freshId k →
          add_candidate maxSize pool c = pool ++ [c] := by
        intro c hcid
        unfold add_candidate
        rw [poolInsert_fresh pool c fun d hd => by
          rw [hcid]; exact hfresh k (le_refl k) d hd]
        refine trim_pool_of_le _ _ ?_
        simp only [List.length_append, List.length_cons, List.length_nil]
        omega
      have hstep : ∀ (c : Candidate), c.id = freshId k → ∀ (records' : Records),
          n ≤ (ensure_min_pool base parentIdx freshId maxSize n fuel (k + 1)
                (add_candidate maxSize pool c, records')).1.length := by
        intro c hcid records'
        apply ih
        · exact hinj
        · intro j hj d hd
          rw [hadd c hcid] at hd
          rcases List.mem_append.mp hd with hd' | hd'
          · exact hfresh j (by omega) d hd'
          · have hdc : d = c := by simpa using hd'
            rw [hdc, hcid]
            intro heq
            have := hinj k j heq
            omega
        · rw [hadd c hcid]
          simp only [List.length_append, List.length_cons, List.length_nil]
          omega
      cases pool with
      | nil => exact hstep _ rfl _
      | cons p ps => exact hstep _ rfl _
    · rw [if_neg hlt]
      show n ≤ pool.length
      omega

lemma trimGo_subset (maxSize : Nat) :
    ∀ (vs : List Candidate) (pool : Pool), trimGo maxSize vs pool ⊆ pool := by
  intro vs
  induction vs with
  | nil => intro pool; simp [trimGo]
  | cons v vs ih =>
    intro pool
    unfold trimGo
    by_cases hlen : maxSize < pool.length
    · rw [if_pos hlen]
      exact (ih _).trans fun x hx => (List.mem_filter.mp hx).1
    · rw [if_neg hlen]
      exact fun x hx => hx

lemma filter_ne_id_eq_erase (pool : Pool) (v : Candidate) :
    v ∈ pool → (pool.map Candidate.id).Nodup →
    pool.filter (fun c => c.id != v.id) = pool.erase v := by
  induction pool with
  | nil => intro hv _; cases hv
  | cons d rest ih =>
    intro hv hnodup
    rw [List.map_cons, List.nodup_cons] at hnodup
    obtain ⟨hdid, hrest⟩ := hnodup
    rw [List.filter_cons]
    by_cases hdv : d = v
    · subst hdv
      simp only [bne_self_eq_false, Bool.false_eq_true, if_false, List.erase_cons_head]
      refine List.filter_eq_self.mpr fun c hc => ?_
      have hne : c.id ≠ d.id := fun heq =>
        hdid (heq ▸ List.mem_map_of_mem Candidate.id hc)
      simpa using hne
    · have hvrest : v ∈ rest := by
        rcases List.mem_cons.mp hv with h | h
        · exact absurd h.symm hdv
        · exact h
      have hne : d.id ≠ v.id := fun heq =>
        hdid (heq ▸ List.mem_map_of_mem Candidate.id hvrest)
      have htrue : (d.id != v.id) = true := by simpa using hne
      rw [htrue, if_pos rfl, List.erase_cons_tail (by simpa using hdv),
        ih hvrest hrest]

lemma trimGo_lowest (maxSize : Nat) :
    ∀ (vs : List Candidate) (pool : Pool),
      List.Perm vs pool →
      vs.Pairwise (fun a b => passageScore a ≤ passageScore b) →
      (pool.map Candidate.id).Nodup →
      ∀ v ∈ pool, v ∉ trimGo maxSize vs pool →
        ∀ s ∈ trimGo maxSize vs pool, passageScore v ≤ passageScore s := by
  intro vs
  induction vs with
  | nil =>
    intro pool hperm _ _ v hv _ s _
    rw [hperm.symm.eq_nil] at hv
    cases hv
  | cons w vs ih =>
    intro pool hperm hsorted hnodup v hv hvout s hs
    obtain ⟨hwpool, hperm'⟩ := List.cons_perm_iff_perm_erase.mp hperm
    obtain ⟨hhead, htail⟩ := List.pairwise_cons.mp hsorted
    unfold trimGo at hvout hs
    by_cases hlen : maxSize < pool.length
    · rw [if_pos hlen] at hvout hs
      rw [filter_ne_id_eq_erase pool w hwpool hnodup] at hvout hs
      have hnodup' : ((pool.erase w).map Candidate.id).Nodup :=
        hnodup.sublist (List.Sublist.map Candidate.id (List.erase_sublist w pool))
      by_cases hvw : v = w
      · subst hvw
        have hsvs : s ∈ vs := hperm'.mem_iff.mpr (trimGo_subset maxSize vs _ hs)
        exact hhead s hsvs
      · have hv' : v ∈ pool.erase w := (List.mem_erase_of_ne hvw).mpr hv
        exact ih (pool.erase w) hperm' htail hnodup' v hv' hvout s hs
    · rw [if_neg hlen] at hvout
      exact absurd hv hvout

lemma sortByScore_all_zero (pool : Pool) (h : ∀ c ∈ pool, passageScore c = 0) :
    sortByScore pool = pool := by
  induction pool with
  | nil => rfl
  | cons c rest ih =>
    have hrest : sortByScore rest = rest :=
      ih fun d hd => h d (List.mem_cons_of_mem c hd)
    unfold sortByScore at hrest ⊢
    rw [List.insertionSort, hrest]
    cases rest with
    | nil => rfl
    | cons d ds =>
      rw [List.orderedInsert, if_pos]
      rw [h c (List.mem_cons_self _ _), h d (List.mem_cons_of_mem c (List.mem_cons_self _ _))]

lemma trimGo_self_drop (maxSize : Nat) :
    ∀ (l : List Candidate), (l.map Candidate.id).Nodup →
      trimGo maxSize l l = l.drop (l.length - maxSize) := by
  intro l
  induction l with
  | nil => intro _; simp [trimGo]
  | cons v rest ih =>
    intro hnodup
    rw [List.map_cons, List.nodup_cons] at hnodup
    obtain ⟨hvid, hrest⟩ := hnodup
    unfold trimGo
    by_cases hlen : maxSize < (v :: rest).length
    · rw [if_pos hlen]
      have hfe : (v :: rest).filter (fun c => c.id != v.id) = rest := by
        rw [List.filter_cons]
        simp only [bne_self_eq_false, Bool.false_eq_true, if_false]
        refine List.filter_eq_self.mpr fun c hc => ?_
        have : c.id ≠ v.id := fun heq =>
          hvid (heq ▸ List.mem_map_of_mem Candidate.id hc)
        simpa using this
      rw [hfe, ih hrest]
      have hsucc : (v :: rest).length - maxSize = (rest.length - maxSize) + 1 := by
        simp only [List.length_cons] at hlen ⊢
        omega
      rw [hsucc, List.drop_succ_cons]
    · rw [if_neg hlen]
      have : (v :: rest).length - maxSize = 0 := by
        simp only [List.length_cons] at hlen ⊢
        omega
      rw [this, List.drop_zero]

lemma trim_pool_no_scores (maxSize : Nat) (pool : Pool)
    (hnodup : (pool.map Candidate.id).Nodup) (h : ∀ c ∈ pool, c.scores = []) :
    trim_pool maxSize pool = pool.drop (pool.length - maxSize) := by
  have hzero : ∀ c ∈ pool, passageScore c = 0 := fun c hc => by
    simp [passageScore, getD, h c hc]
  unfold trim_pool
  by_cases hlen : maxSize < pool.length
  · rw [if_pos hlen, sortByScore_all_zero pool hzero, trimGo_self_drop maxSize pool hnodup]
  · rw [if_neg hlen]
    have : pool.length - maxSize = 0 := by omega
    rw [this, List.drop_zero]

/-- C7 (confirmed): after any `add_candidate` call the pool holds at most
`MAX_CANDIDATES` entries, and after `ensure_min_pool` it holds at least
`MIN_POOL_SIZE` entries.  The `uuid.uuid4()` calls of `ensure_min_pool` are
modelled by an id oracle; the hypotheses state what uuids provide: the
generated ids are pairwise distinct and do not collide with pool ids. -/
theorem pool_size_within_bounds (pool : Pool) (c : Candidate) (records : Records)
    (base : List (String × String)) (parentIdx : Nat → Nat) (freshId : Nat → String)
    (k : Nat) (hinj : ∀ i j, freshId i = freshId j → i = j)
    (hfresh : ∀ j, k ≤ j → ∀ d ∈ pool, d.id ≠ freshId j) :
    (add_candidate MAX_CANDIDATES pool c).length ≤ MAX_CANDIDATES ∧
    MIN_POOL_SIZE ≤ (ensure_min_pool base parentIdx freshId MAX_CANDIDATES
        MIN_POOL_SIZE MIN_POOL_SIZE k (pool, records)).1.length := by
  refine ⟨add_candidate_length_le _ _ _, ?_⟩
  exact ensure_min_pool_length base parentIdx freshId MAX_CANDIDATES MIN_POOL_SIZE
    (by norm_num [MIN_POOL_SIZE, MAX_CANDIDATES]) MIN_POOL_SIZE k pool records hinj hfresh
    (Nat.le_add_right _ _)

/-- Witness for C7: the empty pool, a fresh-id oracle producing pairwise
distinct ids. -/
theorem pool_size_within_bounds_witness :
    (add_candidate MAX_CANDIDATES [] { id := "c0", prompts := [] }).length ≤ MAX_CANDIDATES ∧
    MIN_POOL_SIZE ≤ (ensure_min_pool [("passage", "p"), ("questions", "q")]
        (fun _ => 0) (fun i => String.mk (List.replicate i 'a'))
        MAX_CANDIDATES MIN_POOL_SIZE MIN_POOL_SIZE 0 ([], [])).1.length :=
  pool_size_within_bounds [] { id := "c0", prompts := [] } []
    [("passage", "p"), ("questions", "q")] (fun _ => 0)
    (fun i => String.mk (List.replicate i 'a')) 0
    (fun i j h => by simpa using congrArg (fun s => s.data.length) h)
    (fun j _ d hd => absurd hd (List.not_mem_nil d))

/-- First candidate (no recorded scores) of the C8 counterexample pool. -/
def candA : Candidate := { id := "a", prompts := [] }

/-- Second candidate (no recorded scores) of the C8 counterexample pool. -/
def candB : Candidate := { id := "b", prompts := [] }

/-- Third candidate (no recorded scores) of the C8 counterexample pool. -/
def candC : Candidate := { id := "c", prompts := [] }

/-- C8 (counterexample): trimming is not uniformly random when no candidate
has any recorded scores.  On the concrete capacity-2 pool `[a, b, c]` with
no scores, all sort keys default to 0.0, the stable sort keeps insertion
order, and the trim loop always evicts the earliest-inserted candidate
`"a"`, never `"b"`: the outcome is the single deterministic value
`[candB, candC]`.  (The `except`-branch of `_trim_pool` that would pick
victims via `random.choice` is reachable only if the `try`-body raises,
which float scores never do.) -/
theorem trim_pool_deterministic_counterexample :
    trim_pool 2 [candA, candB, candC] = [candB, candC] ∧
    trim_pool 2 [candA, candB, candC] ≠ [candA, candC] := by
  have h := trim_pool_no_scores 2 [candA, candB, candC]
    (by simp [candA, candB, candC])
    (by
      intro c hc
      simp only [List.mem_cons, List.not_mem_nil, or_false] at hc
      rcases hc with rfl | rfl | rfl <;> rfl)
  refine ⟨by rw [h]; rfl, by rw [h]; simp [candA, candB, candC]⟩

/-- C8 (amended): when the pool exceeds capacity, trimming removes entries
with the lowest `passage`-objective score first (every evicted candidate
scores no higher than every survivor); and when no candidate has any
recorded scores, all keys tie at 0.0 and the evicted entries are,
deterministically, the earliest-inserted ones — not a uniformly random
choice. -/
theorem trim_pool_eviction_policy (maxSize : Nat) (pool : Pool)
    (hnodup : (pool.map Candidate.id).Nodup) :
    (∀ v ∈ pool, v ∉ trim_pool maxSize pool →
      ∀ s ∈ trim_pool maxSize pool, passageScore v ≤ passageScore s) ∧
    ((∀ c ∈ pool, c.scores = []) →
      trim_pool maxSize pool = pool.drop (pool.length - maxSize)) := by
  constructor
  · intro v hv hvout s hs
    unfold trim_pool at hvout hs
    by_cases hlen : maxSize < pool.length
    · rw [if_pos hlen] at hvout hs
      exact trimGo_lowest maxSize (sortByScore pool) pool (sortByScore_perm pool)
        (sortByScore_sorted pool) hnodup v hv hvout s hs
    · rw [if_neg hlen] at hvout
      exact absurd hv hvout
  · exact trim_pool_no_scores maxSize pool hnodup

/-- Witness for the amended C8 at the concrete no-scores pool. -/
theorem trim_pool_eviction_policy_witness :
    (∀ v ∈ [candA, candB, candC], v ∉ trim_pool 2 [candA, candB, candC] →
      ∀ s ∈ trim_pool 2 [candA, candB, candC], passageScore v ≤ passageScore s) ∧
    ((∀ c ∈ [candA, candB, candC], c.scores = []) →
      trim_pool 2 [candA, candB, candC] =
        [candA, candB, candC].drop ([candA, candB, candC].length - 2)) :=
  trim_pool_eviction_policy 2 [candA, candB, candC] (by simp [candA, candB, candC])

/-! ### Claim C9: the rollout runner -/

/-- A module output (`Any` in the executor signature): the passage module
produces a string, the questions module a string or a structured list. -/
inductive PyVal where
  | str : String → PyVal
  | qlist : List Question → PyVal
deriving Repr, DecidableEq

/-- The accumulated `outputs` dict of a rollout. -/
abbrev Outputs := List (String × PyVal)

/-- The injected generation executors
`executors : Dict[str, Callable[[str, str, dict], Any]]`, modelled as a
total function from module name to executor (the pipeline wires an executor
for every module in `MODULE_NAMES`). -/
abbrev Executors := String → String → String → Outputs → PyVal

/-- The scoring collaborator `score_passage_and_questions(outputs, topic)`
as seen from gepa.py: it returns a scores dict and a traces dict
`{"raw": [...], "feedback": [...]}`.  It wraps external LLM calls, so the
driver embedding abstracts it as an oracle; the validators-side embedding
of the same function is `score_passage_and_questions` below. -/
abbrev ScoreFn := Outputs → String → ScoreVec × List String × List String

/-- A rollout result dict as returned by `run_rollout_on_topic`. -/
structure Rollout where
  topic : String
  outputs : Outputs
  scores : ScoreVec
  raw_traces : List String
  fb_traces : List String
deriving Repr, DecidableEq

/-- The `for m in MODULE_NAMES` loop of `run_rollout_on_topic`: look up the
module's prompt (a missing prompt raises `RuntimeError`), call its executor
on (prompt, topic, outputs-so-far) and store the output under the module
name. -/
def runModules (ex : Executors) (cand : Candidate) (topic : String) :
    List String → Outputs → Except String Outputs
  | [], outs => .ok outs
  | m :: ms, outs =>
    match cand.prompts.lookup m with
    | none => .error ("Candidate missing prompt for module " ++ m)
    | some ptext => runModules ex cand topic ms (assocSet outs m (ex m ptext topic outs))

/-- `run_rollout_on_topic(candidate, topic, executors)` from gepa.py.  The
source mutates the candidate dict in place (`candidate["scores"] = ...`,
`candidate["traces"] = ...`, `candidate["fb_traces"] = ...`); the embedding
makes that explicit by returning the updated candidate alongside the
rollout result dict. -/
def run_rollout_on_topic (score : ScoreFn) (ex : Executors) (cand : Candidate)
    (topic : String) : Except String (Candidate × Rollout) :=
  match runModules ex cand topic MODULE_NAMES [] with
  | .error e => .error e
  | .ok outs =>
    let s := score outs topic
    let cand' := { cand with scores := s.1, traces := s.2.1, fb_traces := s.2.2 }
    .ok (cand', { topic := topic, outputs := outs, scores := s.1,
                  raw_traces := s.2.1, fb_traces := s.2.2 })

/-- `run_minibatch(candidate, topics, executors)` from gepa.py: one rollout
per topic, in order, collecting the results; the in-place candidate
mutation threads through the sequence. -/
def run_minibatch (score : ScoreFn) (ex : Executors) :
    Candidate → List String → Except String (Candidate × List Rollout)
  | cand, [] => .ok (cand, [])
  | cand, t :: ts =>
    match run_rollout_on_topic score ex cand t with
    | .error e => .error e
    | .ok (cand', r) =>
      match run_minibatch score ex cand' ts with
      | .error e => .error e
      | .ok (cand'', rs) => .ok (cand'', r :: rs)

lemma run_rollout_frame (score : ScoreFn) (ex : Executors) (cand : Candidate)
    (topic : String) (c' : Candidate) (r : Rollout)
    (h : run_rollout_on_topic score ex cand topic = .ok (c', r)) :
    c'.id = cand.id ∧ c'.prompts = cand.prompts ∧ c'.ancestry = cand.ancestry ∧
      c'.meta = cand.meta ∧ c'.scores = r.scores ∧ c'.traces = r.raw_traces ∧
      c'.fb_traces = r.fb_traces := by
  unfold run_rollout_on_topic at h
  cases hm : runModules ex cand topic MODULE_NAMES [] with
  | error e => rw [hm] at h; cases h
  | ok outs =>
    rw [hm] at h
    simp only [Except.ok.injEq, Prod.mk.injEq] at h
    obtain ⟨hc, hr⟩ := h
    subst hc; subst hr
    exact ⟨rfl, rfl, rfl, rfl, rfl, rfl, rfl⟩

/-- A candidate is well-formed when it has a prompt for every module the
rollout runs (spec §3 invariant; absence is a fatal error in the source). -/
def promptsWF (cand : Candidate) : Prop :=
  ∀ m ∈ MODULE_NAMES, (cand.prompts.lookup m).isSome

lemma runModules_ok (ex : Executors) (cand : Candidate) (topic : String)
    (ms : List String) (hm : ∀ m ∈ ms, (cand.prompts.lookup m).isSome) :
    ∀ outs, ∃ o, runModules ex cand topic ms outs = .ok o := by
  induction ms with
  | nil => intro outs; exact ⟨outs, rfl⟩
  | cons m ms ih =>
    intro outs
    have hsome := hm m (List.mem_cons_self m ms)
    unfold runModules
    cases hlk : cand.prompts.lookup m with
    | none => rw [hlk] at hsome; cases hsome
    | some ptext =>
      exact ih (fun x hx => hm x (List.mem_cons_of_mem m hx)) _

lemma run_rollout_ok (score : ScoreFn) (ex : Executors) (cand : Candidate)
    (topic : String) (hwf : promptsWF cand) :
    ∃ c' r, run_rollout_on_topic score ex cand topic = .ok (c', r) := by
  obtain ⟨o, ho⟩ := runModules_ok ex cand topic MODULE_NAMES hwf []
  have h : run_rollout_on_topic score ex cand topic =
      .ok ({ cand with
        scores := (score o topic).1,
        traces := (score o topic).2.1,
        fb_traces := (score o topic).2.2 },
      { topic := topic,
        outputs := o,
        scores := (score o topic).1,
        raw_traces := (score o topic).2.1,
        fb_traces := (score o topic).2.2 }) := by
    unfold run_rollout_on_topic
    rw [ho]
  exact ⟨_, _, h⟩

lemma run_minibatch_ok (score : ScoreFn) (ex : Executors) :
    ∀ (topics : List String) (cand : Candidate), promptsWF cand →
      ∃ c' rs, run_minibatch score ex cand topics = .ok (c', rs) ∧
        rs.length = topics.length ∧ c'.id = cand.id ∧ c'.prompts = cand.prompts ∧
        c'.ancestry = cand.ancestry ∧ c'.meta = cand.meta := by
  intro topics
  induction topics with
  | nil =>
    intro cand _
    exact ⟨cand, [], rfl, rfl, rfl, rfl, rfl, rfl⟩
  | cons t ts ih =>
    intro cand hwf
    obtain ⟨c1, r, hr⟩ := run_rollout_ok score ex cand t hwf
    obtain ⟨hid, hprompts, hanc, hmeta, _, _, _⟩ :=
      run_rollout_frame score ex cand t c1 r hr
    have hwf1 : promptsWF c1 := by
      intro m hm
      rw [hprompts]
      exact hwf m hm
    obtain ⟨c2, rs, hrs, hlen, hid2, hprompts2, hanc2, hmeta2⟩ := ih c1 hwf1
    refine ⟨c2, r :: rs, ?_, by simp [hlen], hid2.trans hid,
      hprompts2.trans hprompts, hanc2.trans hanc, hmeta2.trans hmeta⟩
    unfold run_minibatch
    rw [hr]
    simp [hrs]

/-- A deterministic stub executor standing in for the external generation
collaborators in concrete witnesses. -/
def stubExec : Executors := fun _ _ _ _ => PyVal.str ""

/-- A deterministic stub scorer standing in for the external scoring
collaborator in concrete witnesses. -/
def stubScore : ScoreFn := fun _ _ => ([("passage", 1)], ["r"], ["f"])

/-- A base candidate with prompts for both modules and no cached scores. -/
def candBase : Candidate :=
  { id := "c0", prompts := [("passage", "p"), ("questions", "q")] }

/-- C9 (counterexample): candidates are mutated in place after creation.
Evaluating the concrete candidate `candBase` (empty `scores`) with stub
executors/scorer keeps its identifier but overwrites its `scores` field —
`run_rollout_on_topic` performs `candidate["scores"] = ...` on the existing
entity instead of producing a new one. -/
theorem run_rollout_mutates_counterexample :
    ∃ c' r, run_rollout_on_topic stubScore stubExec candBase "t" = .ok (c', r) ∧
      c'.id = candBase.id ∧ c'.scores ≠ candBase.scores := by
  refine ⟨_, _, rfl, rfl, ?_⟩
  simp [stubScore, candBase]

/-- C9 (amended): evaluation does mutate the candidate in place, but only
its cached-evaluation fields: `run_rollout_on_topic` overwrites `scores`,
`traces` and `fb_traces` with the rollout's results while leaving `id`,
`prompts`, `ancestry` and `meta` unchanged.  (Prompt changes, by contrast,
are made on a fresh clone with a new identifier — see the child
construction in `gepaStep`.) -/
theorem candidate_evaluation_frame (score : ScoreFn) (ex : Executors)
    (cand : Candidate) (topic : String) (c' : Candidate) (r : Rollout)
    (h : run_rollout_on_topic score ex cand topic = .ok (c', r)) :
    c'.id = cand.id ∧ c'.prompts = cand.prompts ∧ c'.ancestry = cand.ancestry ∧
      c'.meta = cand.meta ∧ c'.scores = r.scores ∧ c'.traces = r.raw_traces ∧
      c'.fb_traces = r.fb_traces :=
  run_rollout_frame score ex cand topic c' r h

/-- Witness for the amended C9 at the stub collaborators. -/
theorem candidate_evaluation_frame_witness :
    ∃ c' r, run_rollout_on_topic stubScore stubExec candBase "t" = .ok (c', r) ∧
      (c'.id = candBase.id ∧ c'.prompts = candBase.prompts ∧
        c'.ancestry = candBase.ancestry ∧ c'.meta = candBase.meta ∧
        c'.scores = r.scores ∧ c'.traces = r.raw_traces ∧
        c'.fb_traces = r.fb_traces) :=
  ⟨_, _, rfl, candidate_evaluation_frame stubScore stubExec candBase "t" _ _ rfl⟩

/-! ### Claims C3 and C10: the `gepa_optimize` iteration and loop

The loop body mixes pure bookkeeping with external effects (LLM calls,
`random`).  Each source of nondeterminism becomes an oracle input: random
choices and the fresh uuids arrive through a per-iteration `IterChoice`,
and the generation/scoring collaborators through `GepaCtx`.  Everything
else — budget accounting, records updates, pool updates, dominance tests,
acceptance logic — is translated directly. -/

/-- The fixed context of one `gepa_optimize` call. -/
structure GepaCtx where
  score : ScoreFn
  ex : Executors
  base : List (String × String)
  maxSize : Nat := MAX_CANDIDATES
  dfeedbackList : List String
  dparetoList : List String
  dparetoSize : Nat := NPARETO
  budget : Nat := ROLLOUT_BUDGET

/-- The oracle inputs consumed by one loop iteration: the `random.choice`
indices, the sampled minibatch and Pareto topics, the LLM mutation attempt
outputs, the `random.random() < 0.10` exploration outcome, and the fresh
uuids. -/
structure IterChoice where
  parentIdx : Nat
  moduleIdx : Nat
  minibatch : List String
  mutAttempts : Nat → String
  explore : Bool
  paretoSample : List String
  childId : String
  ensureParentIdx : Nat → Nat
  ensureFreshIds : Nat → String

/-- The mutable state of the loop: the candidate pool, the score ledger,
and the consumed-rollout counter `rollouts_used`. -/
structure GepaState where
  pool : Pool
  records : Records
  rollouts : Nat

/-- `MUTATION_ATTEMPTS = 2` from the CONFIG block of gepa.py. -/
def MUTATION_ATTEMPTS : Nat := 2

/-- A mutation example triple `{"input": ..., "output": ..., "feedback": ...}`. -/
structure MutationExample where
  input : String
  output : String
  feedback : String

/-- `passage[:200].replace("\n", " ")` when the passage output is a string,
`str(passage)` otherwise (the non-string rendering only feeds logs and the
meta prompt, both external). -/
def pyValSummary : Option PyVal → String
  | some (PyVal.str s) => (s.take 200).replace "\n" " "
  | some (PyVal.qlist qs) => "[" ++ toString qs.length ++ " questions]"
  | none => ""

/-- The `examples` list built from the parent's minibatch results. -/
def mkExamples (rs : List Rollout) : List MutationExample :=
  rs.map fun r =>
    { input := r.topic,
      output := pyValSummary (r.outputs.lookup "passage"),
      feedback := String.intercalate "; " r.fb_traces }

/-- Python `pat in s` for strings: `splitOn` yields more than one part iff
the pattern occurs. -/
def strContains (s pat : String) : Bool :=
  decide (1 < (s.splitOn pat).length)

/-- The `for attempt in range(MUTATION_ATTEMPTS)` loop: adopt the first
LLM mutation output that is non-empty, longer than 20 characters and
different from the current instruction.  The attempt outputs (the values
`reflective_prompt_mutation` would return) come from the oracle. -/
def mutationLoop (current : String) (attempts : Nat → String) : Option String :=
  (List.range MUTATION_ATTEMPTS).foldl
    (fun acc i =>
      match acc with
      | some s => some s
      | none =>
        let mutated := attempts i
        if 20 < mutated.length ∧ mutated ≠ current then some mutated else none)
    none

/-- The scripted fallback mutation, keyed on the aggregated feedback text. -/
def fallbackMutation (current : String) (examples : List MutationExample) : String :=
  let fb_concat := (String.intercalate "; " (examples.map MutationExample.feedback)).take 500
  let low := fb_concat.toLower
  if strContains low "short" then
    current ++ "\n(Please expand passage: target ~900 words.)"
  else if strContains low "missing summary" then
    current ++ "\n(Include Summary: at the end.)"
  else
    current ++ "\n(Add cohesion markers: however, moreover; add 2 academic words per paragraph.)"

/-- `parent = random.choice(candidates)`: the oracle index, reduced modulo
the (non-empty) pool size. -/
def stepParent (ch : IterChoice) (p : Candidate) (ps : Pool) : Candidate :=
  (p :: ps).getD (ch.parentIdx % (p :: ps).length) p

/-- `module_to_mutate = random.choice(MODULE_NAMES)`. -/
def chosenModule (ch : IterChoice) : String :=
  MODULE_NAMES.getD (ch.moduleIdx % MODULE_NAMES.length) "passage"

/-- The child construction: a deep copy of the (already evaluated) parent
with a fresh id, the mutated module's prompt replaced, and the ancestry
extended by the parent's id. -/
def buildChild (ch : IterChoice) (parent1 : Candidate)
    (examples : List MutationExample) (current : String) : Candidate :=
  { parent1 with
    id := ch.childId,
    prompts := assocSet parent1.prompts (chosenModule ch)
      (match mutationLoop current ch.mutAttempts with
       | some m => m
       | none => fallbackMutation current examples),
    ancestry := parent1.ancestry ++ [parent1.id] }

/-- `rec = records.setdefault(cid, {}); for r in results: rec[r["topic"]] =
r["scores"]`. -/
def recordsSetTopics (records : Records) (cid : String) (rs : List Rollout) : Records :=
  assocSet records cid
    (rs.foldl (fun m r => assocSet m r.topic r.scores) ((records.lookup cid).getD []))

/-- `records[cid] = {r["topic"]: r["scores"] for r in results}` (a fresh
dict overwriting any previous entry). -/
def recordsFreshEntry (records : Records) (cid : String) (rs : List Rollout) : Records :=
  assocSet records cid (rs.foldl (fun m r => assocSet m r.topic r.scores) [])

/-- One iteration of the `while rollouts_used < budget` loop of
`gepa_optimize` (gepa.py lines 387-494): evaluate the parent on the
minibatch, build and evaluate the mutated child, then either reject the
child (`continue`, skipping `ensure_min_pool`), accept it by the 10%
exploration policy, or run the extended Pareto evaluation and accept or
reject on its outcome.  `.error` models an uncaught Python exception
(empty pool for `random.choice`, or a missing module prompt). -/
def gepaStep (ctx : GepaCtx) (ch : IterChoice) (st : GepaState) :
    Except String GepaState :=
  match st.pool with
  | [] => Except.error "random.choice from empty pool"
  | p :: ps =>
    let parent := stepParent ch p ps
    match run_minibatch ctx.score ctx.ex parent ch.minibatch with
    | .error e => .error e
    | .ok (parent1, parentResults) =>
      let rollouts1 := st.rollouts + parentResults.length
      let pool1 := poolInsert st.pool parent1
      let records1 := recordsSetTopics st.records parent.id parentResults
      let examples := mkExamples parentResults
      match parent1.prompts.lookup (chosenModule ch) with
      | none => .error ("KeyError: " ++ chosenModule ch)
      | some current =>
        let child := buildChild ch parent1 examples current
        match run_minibatch ctx.score ctx.ex child ch.minibatch with
        | .error e => .error e
        | .ok (child1, childResults) =>
          let rollouts2 := rollouts1 + childResults.length
          let parentVec := aggregate_scores (parentResults.map Rollout.scores)
          let childVec := aggregate_scores (childResults.map Rollout.scores)
          if dominates childVec parentVec = false then
            if ch.explore then
              let pool2 := add_candidate ctx.maxSize pool1 child1
              let records2 := recordsFreshEntry records1 child1.id childResults
              let fin := ensure_min_pool ctx.base ch.ensureParentIdx ch.ensureFreshIds
                ctx.maxSize MIN_POOL_SIZE MIN_POOL_SIZE 0 (pool2, records2)
              .ok { pool := fin.1, records := fin.2, rollouts := rollouts2 }
            else
              .ok { pool := pool1, records := records1, rollouts := rollouts2 }
          else
            match run_minibatch ctx.score ctx.ex parent1 ch.paretoSample with
            | .error e => .error e
            | .ok (parent2, parentPareto) =>
              match run_minibatch ctx.score ctx.ex child1 ch.paretoSample with
              | .error e => .error e
              | .ok (child2, childPareto) =>
                let rollouts3 := rollouts2 + ch.paretoSample.length * 2
                let pool2 := poolInsert pool1 parent2
                let parentPVec := aggregate_scores (parentPareto.map Rollout.scores)
                let childPVec := aggregate_scores (childPareto.map Rollout.scores)
                if dominates childPVec parentPVec then
                  let pool3 := add_candidate ctx.maxSize pool2 child2
                  let records2 := recordsFreshEntry records1 child2.id childPareto
                  let records3 := recordsFreshEntry records2 parent2.id parentPareto
                  let fin := ensure_min_pool ctx.base ch.ensureParentIdx ch.ensureFreshIds
                    ctx.maxSize MIN_POOL_SIZE MIN_POOL_SIZE 0 (pool3, records3)
                  .ok { pool := fin.1, records := fin.2, rollouts := rollouts3 }
                else
                  let fin := ensure_min_pool ctx.base ch.ensureParentIdx ch.ensureFreshIds
                    ctx.maxSize MIN_POOL_SIZE MIN_POOL_SIZE 0 (pool2, records1)
                  .ok { pool := fin.1, records := fin.2, rollouts := rollouts3 }

/-- The `while rollouts_used < budget` loop, fuelled: the first argument is
the remaining fuel (the termination theorem shows `budget` units suffice),
the second the iteration counter indexing the oracle.  The only successful
exit is the budget test, exactly as in the source; `.error "fuel"` marks
fuel exhaustion of the model. -/
def gepaLoop (ctx : GepaCtx) (oracle : Nat → IterChoice) :
    Nat → Nat → GepaState → Except String GepaState
  | 0, _, st => if ctx.budget ≤ st.rollouts then .ok st else .error "fuel"
  | fuel + 1, k, st =>
    if ctx.budget ≤ st.rollouts then .ok st
    else
      match gepaStep ctx (oracle k) st with
      | .error e => .error e
      | .ok st' => gepaLoop ctx oracle fuel (k + 1) st'

lemma run_minibatch_frame (score : ScoreFn) (ex : Executors) :
    ∀ (topics : List String) (cand c' : Candidate) (rs : List Rollout),
      run_minibatch score ex cand topics = .ok (c', rs) →
      c'.id = cand.id ∧ c'.prompts = cand.prompts ∧ c'.ancestry = cand.ancestry ∧
        c'.meta = cand.meta ∧ rs.length = topics.length := by
  intro topics
  induction topics with
  | nil =>
    intro cand c' rs h
    unfold run_minibatch at h
    simp only [Except.ok.injEq, Prod.mk.injEq] at h
    obtain ⟨hc, hrs⟩ := h
    subst hc; subst hrs
    exact ⟨rfl, rfl, rfl, rfl, rfl⟩
  | cons t ts ih =>
    intro cand c' rs h
    unfold run_minibatch at h
    cases h1 : run_rollout_on_topic score ex cand t with
    | error e => rw [h1] at h; cases h
    | ok pr =>
      rw [h1] at h
      obtain ⟨c1, r⟩ := pr
      dsimp only at h
      cases h2 : run_minibatch score ex c1 ts with
      | error e => rw [h2] at h; cases h
      | ok pr2 =>
        rw [h2] at h
        obtain ⟨c2, rs2⟩ := pr2
        simp only [Except.ok.injEq, Prod.mk.injEq] at h
        obtain ⟨hc, hrs⟩ := h
        subst hc; subst hrs
        obtain ⟨hid1, hpr1, hanc1, hmeta1, _, _, _⟩ :=
          run_rollout_frame score ex cand t c1 r h1
        obtain ⟨hid2, hpr2, hanc2, hmeta2, hlen⟩ := ih c1 c2 rs2 h2
        exact ⟨hid2.trans hid1, hpr2.trans hpr1, hanc2.trans hanc1,
          hmeta2.trans hmeta1, by simp [hlen]⟩

lemma stepParent_mem (ch : IterChoice) (p : Candidate) (ps : Pool) :
    stepParent ch p ps ∈ p :: ps := by
  unfold stepParent
  have hlt : ch.parentIdx % (p :: ps).length < (p :: ps).length :=
    Nat.mod_lt _ (Nat.succ_pos _)
  rw [List.getD_eq_getElem _ _ hlt]
  exact List.getElem_mem hlt

lemma poolInsert_length_of_mem_id (pool : Pool) (c : Candidate)
    (h : ∃ d ∈ pool, d.id = c.id) : (poolInsert pool c).length = pool.length := by
  unfold poolInsert
  rw [if_pos]
  · exact List.length_map pool _
  · obtain ⟨d, hd, hid⟩ := h
    simp only [List.any_eq_true, beq_iff_eq]
    exact ⟨d, hd, hid⟩

/-- C3 (confirmed): evaluating one candidate on a minibatch of 8 topics
consumes exactly 8 rollout units (one per topic, however many modules ran:
the counter adds `len(parent_results)`, which equals the minibatch size);
and an iteration in which the child's aggregated minibatch vector does not
dominate the parent's and the exploration acceptance does not fire adds
exactly 16 units (8 for the parent, 8 for the child) and leaves the pool
size unchanged (the parent write-back replaces the existing entry and the
child is discarded). -/
theorem gepa_iteration_budget_and_pool
    (ctx : GepaCtx) (ch : IterChoice) (st : GepaState) (p : Candidate) (ps : Pool)
    (parent1 child1 : Candidate) (parentResults childResults : List Rollout)
    (current : String)
    (hpool : st.pool = p :: ps)
    (hmb : ch.minibatch.length = 8)
    (hpr : run_minibatch ctx.score ctx.ex (stepParent ch p ps) ch.minibatch
      = .ok (parent1, parentResults))
    (hcur : parent1.prompts.lookup (chosenModule ch) = some current)
    (hcr : run_minibatch ctx.score ctx.ex
      (buildChild ch parent1 (mkExamples parentResults) current) ch.minibatch
      = .ok (child1, childResults))
    (hdom : dominates (aggregate_scores (childResults.map Rollout.scores))
      (aggregate_scores (parentResults.map Rollout.scores)) DOMINANCE_EPS = false)
    (hexp : ch.explore = false) :
    parentResults.length = 8 ∧
    ∃ st', gepaStep ctx ch st = .ok st' ∧
      st'.rollouts = st.rollouts + 16 ∧ st'.pool.length = st.pool.length := by
  obtain ⟨hidp, _, _, _, hlenp⟩ := run_minibatch_frame ctx.score ctx.ex
    ch.minibatch (stepParent ch p ps) parent1 parentResults hpr
  obtain ⟨_, _, _, _, hlenc⟩ := run_minibatch_frame ctx.score ctx.ex
    ch.minibatch _ child1 childResults hcr
  refine ⟨by rw [hlenp, hmb], ?_⟩
  refine ⟨{ pool := poolInsert st.pool parent1,
            records := recordsSetTopics st.records (stepParent ch p ps).id parentResults,
            rollouts := st.rollouts + parentResults.length + childResults.length },
    ?_, ?_, ?_⟩
  · unfold gepaStep
    rw [hpool]
    simp only [hpr, hcur, hcr, hdom, hexp, if_true, if_false, Bool.false_eq_true]
  · show st.rollouts + parentResults.length + childResults.length = st.rollouts + 16
    rw [hlenp, hlenc, hmb]
  · show (poolInsert st.pool parent1).length = st.pool.length
    refine poolInsert_length_of_mem_id st.pool parent1 ⟨stepParent ch p ps, ?_, hidp.symm⟩
    rw [hpool]
    exact stepParent_mem ch p ps

lemma dominates_self_false (v : ScoreVec) (eps : ℚ) (heps : 0 ≤ eps) :
    dominates v v eps = false := by
  unfold dominates
  have hany : ((v.map Prod.fst ++ v.map Prod.fst).any fun k =>
      decide (getD v k + eps < getD v k)) = false := by
    rw [List.any_eq_false]
    intro k _
    simp only [decide_eq_true_eq, not_lt]
    linarith
  simp [hany]

/-- Concrete context for the C3 witness: stub collaborators, base prompts
for both modules. -/
def wCtx : GepaCtx :=
  { score := stubScore, ex := stubExec,
    base := [("passage", "p"), ("questions", "q")],
    dfeedbackList := ["t1", "t2", "t3", "t4", "t5", "t6", "t7", "t8"],
    dparetoList := [] }

/-- Concrete oracle choices for the C3 witness: an 8-topic minibatch, LLM
mutation attempts that return the empty string (forcing the scripted
fallback), and exploration acceptance off. -/
def wCh : IterChoice :=
  { parentIdx := 0, moduleIdx := 0,
    minibatch := ["t1", "t2", "t3", "t4", "t5", "t6", "t7", "t8"],
    mutAttempts := fun _ => "", explore := false, paretoSample := [],
    childId := "child", ensureParentIdx := fun _ => 0,
    ensureFreshIds := fun _ => "fid" }

/-- Concrete loop state for the C3 witness: one candidate, empty ledger. -/
def wSt : GepaState := { pool := [candBase], records := [], rollouts := 0 }

/-- The outputs dict the stub executors produce on any topic. -/
def wOuts : Outputs := [("passage", PyVal.str ""), ("questions", PyVal.str "")]

/-- The rollout result the stub collaborators produce on topic `t`. -/
def wRollout (t : String) : Rollout :=
  { topic := t, outputs := wOuts, scores := [("passage", 1)],
    raw_traces := ["r"], fb_traces := ["f"] }

/-- The 8 rollout results of the witness minibatch. -/
def wResults : List Rollout :=
  ["t1", "t2", "t3", "t4", "t5", "t6", "t7", "t8"].map wRollout

/-- The parent after the witness minibatch evaluation. -/
def wParent1 : Candidate :=
  { candBase with scores := [("passage", 1)], traces := ["r"], fb_traces := ["f"] }

/-- The child built from the witness parent. -/
def wChild : Candidate := buildChild wCh wParent1 (mkExamples wResults) "p"

/-- The child after the witness minibatch evaluation. -/
def wChild1 : Candidate :=
  { wChild with scores := [("passage", 1)], traces := ["r"], fb_traces := ["f"] }

/-- Witness for C3 at the concrete stub iteration. -/
theorem gepa_iteration_budget_and_pool_witness :
    wCh.minibatch.length = 8 ∧
    (∃ st', gepaStep wCtx wCh wSt = .ok st' ∧
      st'.rollouts = wSt.rollouts + 16 ∧ st'.pool.length = wSt.pool.length) :=
  ⟨rfl,
    (gepa_iteration_budget_and_pool wCtx wCh wSt candBase [] wParent1 wChild1
      wResults wResults "p" rfl rfl rfl rfl rfl
      (dominates_self_false _ _ (by norm_num [DOMINANCE_EPS])) rfl).2⟩

lemma poolInsert_ne_nil (pool : Pool) (c : Candidate) : poolInsert pool c ≠ [] := by
  unfold poolInsert
  by_cases h : (pool.any fun d => d.id == c.id) = true
  · rw [if_pos h]
    obtain ⟨d, hd, _⟩ := List.any_eq_true.mp h
    intro hmap
    rw [List.map_eq_nil_iff] at hmap
    rw [hmap] at hd
    cases hd
  · rw [if_neg h]
    simp

lemma poolInsert_nodup (pool : Pool) (c : Candidate)
    (h : (pool.map Candidate.id).Nodup) :
    ((poolInsert pool c).map Candidate.id).Nodup := by
  unfold poolInsert
  by_cases hc : (pool.any fun d => d.id == c.id) = true
  · rw [if_pos hc]
    have hmap : (pool.map fun d => if d.id = c.id then c else d).map Candidate.id
        = pool.map Candidate.id := by
      rw [List.map_map]
      refine List.map_congr_left fun d _ => ?_
      by_cases hdc : d.id = c.id
      · simp [hdc]
      · simp [hdc]
    rw [hmap]
    exact h
  · rw [if_neg hc]
    rw [List.map_append, List.map_cons, List.map_nil, List.nodup_append]
    refine ⟨h, List.nodup_singleton _, fun x hx hxc => ?_⟩
    obtain ⟨d, hd, hdx⟩ := List.mem_map.mp hx
    rw [List.mem_singleton] at hxc
    rw [List.any_eq_true] at hc
    push_neg at hc
    have hne : d.id ≠ c.id := by simpa using hc d hd
    exact hne (hdx.trans hxc)

lemma poolInsert_mem (pool : Pool) (c : Candidate) :
    ∀ x ∈ poolInsert pool c, x ∈ pool ∨ x = c := by
  intro x hx
  unfold poolInsert at hx
  by_cases hc : (pool.any fun d => d.id == c.id) = true
  · rw [if_pos hc] at hx
    obtain ⟨d, hd, hdx⟩ := List.mem_map.mp hx
    by_cases hdc : d.id = c.id
    · right; rw [← hdx]; simp [hdc]
    · left; rw [← hdx]; simpa [hdc] using hd
  · rw [if_neg hc] at hx
    rcases List.mem_append.mp hx with h | h
    · exact Or.inl h
    · exact Or.inr (by simpa using h)

lemma trimGo_sublist (maxSize : Nat) :
    ∀ (vs : List Candidate) (pool : Pool), List.Sublist (trimGo maxSize vs pool) pool := by
  intro vs
  induction vs with
  | nil => intro pool; simp [trimGo]
  | cons v vs ih =>
    intro pool
    unfold trimGo
    by_cases hlen : maxSize < pool.length
    · rw [if_pos hlen]
      exact (ih _).trans (List.filter_sublist pool)
    · rw [if_neg hlen]

lemma filter_ne_id_length (vid : String) :
    ∀ (pool : Pool), (pool.map Candidate.id).Nodup →
      pool.length - 1 ≤ (pool.filter fun c => c.id != vid).length := by
  intro pool
  induction pool with
  | nil => intro _; simp
  | cons d rest ih =>
    intro hnodup
    rw [List.map_cons, List.nodup_cons] at hnodup
    obtain ⟨hd, hrest⟩ := hnodup
    rw [List.filter_cons]
    by_cases hdv : d.id = vid
    · have hfalse : (d.id != vid) = false := by simpa using hdv
      rw [hfalse]
      simp only [Bool.false_eq_true, if_false]
      have hself : rest.filter (fun c => c.id != vid) = rest :=
        List.filter_eq_self.mpr fun c hc => by
          have : c.id ≠ vid := fun heq =>
            hd (by rw [← hdv] at heq; exact heq ▸ List.mem_map_of_mem Candidate.id hc)
          simpa using this
      rw [hself]
      simp
    · have htrue : (d.id != vid) = true := by simpa using hdv
      rw [htrue, if_pos rfl]
      have := ih hrest
      simp only [List.length_cons]
      omega

lemma trimGo_ne_nil (maxSize : Nat) (hmax : 1 ≤ maxSize) :
    ∀ (vs : List Candidate) (pool : Pool), pool ≠ [] →
      (pool.map Candidate.id).Nodup → trimGo maxSize vs pool ≠ [] := by
  intro vs
  induction vs with
  | nil => intro pool hne _; simpa [trimGo] using hne
  | cons v vs ih =>
    intro pool hne hnodup
    unfold trimGo
    by_cases hlen : maxSize < pool.length
    · rw [if_pos hlen]
      have hflen := filter_ne_id_length v.id pool hnodup
      have hfne : pool.filter (fun c => c.id != v.id) ≠ [] := by
        intro h
        rw [h] at hflen
        simp at hflen
        omega
      have hfnodup : ((pool.filter fun c => c.id != v.id).map Candidate.id).Nodup :=
        hnodup.sublist (List.Sublist.map Candidate.id (List.filter_sublist pool))
      exact ih _ hfne hfnodup
    · rw [if_neg hlen]
      exact hne

lemma add_candidate_inv (maxSize : Nat) (pool : Pool) (c : Candidate)
    (hmax : 1 ≤ maxSize) (hnodup : (pool.map Candidate.id).Nodup)
    (hwf : ∀ d ∈ pool, promptsWF d) (hwfc : promptsWF c) :
    add_candidate maxSize pool c ≠ [] ∧
    ((add_candidate maxSize pool c).map Candidate.id).Nodup ∧
    ∀ d ∈ add_candidate maxSize pool c, promptsWF d := by
  have hins_ne := poolInsert_ne_nil pool c
  have hins_nodup := poolInsert_nodup pool c hnodup
  have hins_wf : ∀ d ∈ poolInsert pool c, promptsWF d := fun d hd => by
    rcases poolInsert_mem pool c d hd with h | rfl
    · exact hwf d h
    · exact hwfc
  unfold add_candidate trim_pool
  by_cases hlen : maxSize < (poolInsert pool c).length
  · rw [if_pos hlen]
    refine ⟨trimGo_ne_nil maxSize hmax _ _ hins_ne hins_nodup, ?_, ?_⟩
    · exact hins_nodup.sublist (List.Sublist.map Candidate.id (trimGo_sublist _ _ _))
    · exact fun d hd => hins_wf d ((trimGo_sublist _ _ _).mem hd)
  · rw [if_neg hlen]
    exact ⟨hins_ne, hins_nodup, hins_wf⟩

lemma lookup_replaceKey {α : Type} (k k' : String) (v : α) :
    ∀ m : List (String × α),
      ((m.map fun p => if p.1 = k then (k, v) else p).lookup k') =
        if k' = k then (m.lookup k).map fun _ => v else m.lookup k' := by
  intro m
  induction m with
  | nil => by_cases h : k' = k <;> simp [h, List.lookup]
  | cons p rest ih =>
    rw [List.map_cons]
    by_cases hpk : p.1 = k
    · rw [if_pos hpk]
      by_cases hk' : k' = k
      · have hb1 : (k' == k) = true := by simpa using hk'
        have hb3 : (k == p.1) = true := by simpa using hpk.symm
        simp [List.lookup, hb1, hb3, hk']
      · have hb1 : (k' == k) = false := by simpa using hk'
        have hb2 : (k' == p.1) = false := by rw [hpk]; exact hb1
        simp [List.lookup, hb1, hb2, hk', ih]
    · rw [if_neg hpk]
      by_cases hk' : k' = k
      · subst hk'
        have hb3 : (k' == p.1) = false := by simpa using fun h => hpk h.symm
        simp [List.lookup, hb3, ih]
      · simp only [List.lookup]
        cases hbe : (k' == p.1) with
        | true => simp [List.lookup, hbe, hk']
        | false => simp [List.lookup, hbe, ih, hk']

lemma lookup_append_single {α : Type} (k k' : String) (v : α) :
    ∀ m : List (String × α), (∀ p ∈ m, p.1 ≠ k) →
      ((m ++ [(k, v)]).lookup k') = if k' = k then some v else m.lookup k' := by
  intro m
  induction m with
  | nil =>
    intro _
    by_cases h : k' = k
    · simp [List.lookup, h]
    · simp [List.lookup, h, (by simpa using h : (k' == k) = false)]
  | cons p rest ih =>
    intro hall
    rw [List.cons_append]
    simp only [List.lookup]
    cases hbe : (k' == p.1) with
    | true =>
      have : k' ≠ k := by
        have hk'p : k' = p.1 := by simpa using hbe
        rw [hk'p]
        exact hall p (List.mem_cons_self p rest)
      rw [if_neg this]
    | false =>
      rw [ih fun q hq => hall q (List.mem_cons_of_mem p hq)]

lemma assocSet_lookup {α : Type} (k k' : String) (v : α) (m : List (String × α)) :
    (assocSet m k v).lookup k' = if k' = k then some v else m.lookup k' := by
  unfold assocSet
  by_cases hmem : (m.any fun p => p.1 == k) = true
  · rw [if_pos hmem, lookup_replaceKey]
    by_cases hk' : k' = k
    · rw [if_pos hk', if_pos hk']
      obtain ⟨p, hp, hpk⟩ := List.any_eq_true.mp hmem
      have : ∃ b, m.lookup k = some b := by
        have hpk' : p.1 = k := by simpa using hpk
        clear hmem hk'
        induction m with
        | nil => cases hp
        | cons q rest ih =>
          rcases List.mem_cons.mp hp with heq | hq
          · refine ⟨q.2, ?_⟩
            have hb : (k == q.1) = true := by
              rw [heq] at hpk'
              simpa using hpk'.symm
            simp [List.lookup, hb]
          · simp only [List.lookup]
            cases hbe : (k == q.1) with
            | true => exact ⟨q.2, rfl⟩
            | false => exact ih hq
      obtain ⟨b, hb⟩ := this
      rw [hb]
      rfl
    · rw [if_neg hk', if_neg hk']
  · rw [if_neg hmem]
    rw [List.any_eq_true] at hmem
    push_neg at hmem
    exact lookup_append_single k k' v m fun p hp => by simpa using hmem p hp

lemma lookup_map_suffix (suf : String) (k : String) :
    ∀ m : List (String × String),
      ((m.map fun q => (q.1, q.2 ++ suf)).lookup k) =
        (m.lookup k).map fun s => s ++ suf := by
  intro m
  induction m with
  | nil => simp [List.lookup]
  | cons p rest ih =>
    rw [List.map_cons]
    simp only [List.lookup]
    cases hbe : (k == p.1) with
    | true => rfl
    | false => exact ih

lemma buildChild_wf (ch : IterChoice) (parent1 : Candidate)
    (examples : List MutationExample) (current : String)
    (hwf : promptsWF parent1) : promptsWF (buildChild ch parent1 examples current) := by
  intro m hm
  unfold buildChild
  simp only
  rw [assocSet_lookup]
  by_cases h : m = chosenModule ch
  · rw [if_pos h]
    rfl
  · rw [if_neg h]
    exact hwf m hm

lemma ensure_min_pool_inv (base : List (String × String))
    (parentIdx : Nat → Nat) (freshId : Nat → String) (maxSize n : Nat)
    (hmax : 1 ≤ maxSize) (hbase : ∀ m ∈ MODULE_NAMES, (base.lookup m).isSome) :
    ∀ (fuel k : Nat) (pool : Pool) (records : Records),
      pool ≠ [] → (pool.map Candidate.id).Nodup → (∀ c ∈ pool, promptsWF c) →
      (ensure_min_pool base parentIdx freshId maxSize n fuel k (pool, records)).1 ≠ [] ∧
      ((ensure_min_pool base parentIdx freshId maxSize n fuel k
        (pool, records)).1.map Candidate.id).Nodup ∧
      ∀ c ∈ (ensure_min_pool base parentIdx freshId maxSize n fuel k (pool, records)).1,
        promptsWF c := by
  intro fuel
  induction fuel with
  | zero =>
    intro k pool records hne hnodup hwf
    exact ⟨hne, hnodup, hwf⟩
  | succ fuel ih =>
    intro k pool records hne hnodup hwf
    unfold ensure_min_pool
    by_cases hlt : pool.length < n
    · rw [if_pos hlt]
      cases pool with
      | nil => exact absurd rfl hne
      | cons p ps =>
        have hparent_mem : (p :: ps).getD (parentIdx k % (p :: ps).length) p ∈ p :: ps := by
          have hidx : parentIdx k % (p :: ps).length < (p :: ps).length :=
            Nat.mod_lt _ (Nat.succ_pos _)
          rw [List.getD_eq_getElem _ _ hidx]
          exact List.getElem_mem hidx
        have hparent_wf := hwf _ hparent_mem
        have hchild_wf : promptsWF
            { (p :: ps).getD (parentIdx k % (p :: ps).length) p with
              id := freshId k,
              prompts := ((p :: ps).getD (parentIdx k % (p :: ps).length) p).prompts.map
                fun q => (q.1, q.2 ++ VARIATION_SUFFIX) } := by
          intro m hm
          simp only
          rw [lookup_map_suffix]
          have := hparent_wf m hm
          cases hlk : (((p :: ps).getD (parentIdx k % (p :: ps).length) p).prompts.lookup m) with
          | none => rw [hlk] at this; cases this
          | some s => rfl
        obtain ⟨hne', hnodup', hwf'⟩ := add_candidate_inv maxSize (p :: ps) _
          hmax hnodup hwf hchild_wf
        exact ih (k + 1) _ _ hne' hnodup' hwf'
    · rw [if_neg hlt]
      exact ⟨hne, hnodup, hwf⟩

lemma chosenModule_mem (ch : IterChoice) : chosenModule ch ∈ MODULE_NAMES := by
  unfold chosenModule
  have hpos : 0 < MODULE_NAMES.length := by unfold MODULE_NAMES; simp
  have hlt : ch.moduleIdx % MODULE_NAMES.length < MODULE_NAMES.length :=
    Nat.mod_lt _ hpos
  rw [List.getD_eq_getElem _ _ hlt]
  exact List.getElem_mem hlt

lemma gepaStep_progress (ctx : GepaCtx) (ch : IterChoice) (st : GepaState)
    (hmax : 1 ≤ ctx.maxSize)
    (hbase : ∀ m ∈ MODULE_NAMES, (ctx.base.lookup m).isSome)
    (hmblen : 1 ≤ ch.minibatch.length)
    (hne : st.pool ≠ []) (hnodup : (st.pool.map Candidate.id).Nodup)
    (hwf : ∀ c ∈ st.pool, promptsWF c) :
    ∃ st', gepaStep ctx ch st = .ok st' ∧ st.rollouts + 2 ≤ st'.rollouts ∧
      st'.pool ≠ [] ∧ (st'.pool.map Candidate.id).Nodup ∧
      ∀ c ∈ st'.pool, promptsWF c := by
  cases hpool : st.pool with
  | nil => exact absurd hpool hne
  | cons p ps =>
    have hparent_mem : stepParent ch p ps ∈ st.pool := by
      rw [hpool]; exact stepParent_mem ch p ps
    have hparent_wf : promptsWF (stepParent ch p ps) := hwf _ hparent_mem
    obtain ⟨parent1, parentResults, hpr, hplen, hpid, hpprompts, hpanc, hpmeta⟩ :=
      run_minibatch_ok ctx.score ctx.ex ch.minibatch (stepParent ch p ps) hparent_wf
    have hparent1_wf : promptsWF parent1 := by
      intro m hm; rw [hpprompts]; exact hparent_wf m hm
    have hpool1_ne := poolInsert_ne_nil st.pool parent1
    have hpool1_nodup := poolInsert_nodup st.pool parent1 hnodup
    have hpool1_wf : ∀ c ∈ poolInsert st.pool parent1, promptsWF c := fun c hc => by
      rcases poolInsert_mem _ _ c hc with h | rfl
      · exact hwf c h
      · exact hparent1_wf
    have hcursome := hparent1_wf (chosenModule ch) (chosenModule_mem ch)
    obtain ⟨current, hcur⟩ := Option.isSome_iff_exists.mp hcursome
    have hchild_wf := buildChild_wf ch parent1 (mkExamples parentResults) current hparent1_wf
    obtain ⟨child1, childResults, hcr, hclen, hcid, hcprompts, hcanc, hcmeta⟩ :=
      run_minibatch_ok ctx.score ctx.ex ch.minibatch _ hchild_wf
    have hchild1_wf : promptsWF child1 := by
      intro m hm; rw [hcprompts]; exact hchild_wf m hm
    cases hdomv : dominates (aggregate_scores (childResults.map Rollout.scores))
        (aggregate_scores (parentResults.map Rollout.scores)) DOMINANCE_EPS with
    | false =>
      cases hexp : ch.explore with
      | false =>
        refine ⟨{ pool := poolInsert st.pool parent1,
                  records := recordsSetTopics st.records (stepParent ch p ps).id parentResults,
                  rollouts := st.rollouts + parentResults.length + childResults.length },
          ?_, ?_, hpool1_ne, hpool1_nodup, hpool1_wf⟩
        · unfold gepaStep
          rw [hpool]
          simp only [hpr, hcur, hcr, hdomv, hexp, Bool.false_eq_true, if_true, if_false]
        · simp only
          omega
      | true =>
        obtain ⟨hadd_ne, hadd_nodup, hadd_wf⟩ := add_candidate_inv ctx.maxSize
          (poolInsert st.pool parent1) child1 hmax hpool1_nodup hpool1_wf hchild1_wf
        obtain ⟨hens_ne, hens_nodup, hens_wf⟩ := ensure_min_pool_inv ctx.base
          ch.ensureParentIdx ch.ensureFreshIds ctx.maxSize MIN_POOL_SIZE hmax hbase
          MIN_POOL_SIZE 0
          (add_candidate ctx.maxSize (poolInsert st.pool parent1) child1)
          (recordsFreshEntry (recordsSetTopics st.records (stepParent ch p ps).id
            parentResults) child1.id childResults)
          hadd_ne hadd_nodup hadd_wf
        refine ⟨GepaState.mk
          (ensure_min_pool ctx.base ch.ensureParentIdx ch.ensureFreshIds
            ctx.maxSize MIN_POOL_SIZE MIN_POOL_SIZE 0
            (add_candidate ctx.maxSize (poolInsert st.pool parent1) child1,
             recordsFreshEntry (recordsSetTopics st.records (stepParent ch p ps).id
               parentResults) child1.id childResults)).1
          (ensure_min_pool ctx.base ch.ensureParentIdx ch.ensureFreshIds
            ctx.maxSize MIN_POOL_SIZE MIN_POOL_SIZE 0
            (add_candidate ctx.maxSize (poolInsert st.pool parent1) child1,
             recordsFreshEntry (recordsSetTopics st.records (stepParent ch p ps).id
               parentResults) child1.id childResults)).2
          (st.rollouts + parentResults.length + childResults.length),
          ?_, ?_, hens_ne, hens_nodup, hens_wf⟩
        · unfold gepaStep
          rw [hpool]
          simp only [hpr, hcur, hcr, hdomv, hexp, Bool.false_eq_true, if_true, if_false]
        · simp only
          omega
    | true =>
      obtain ⟨parent2, parentPareto, hpr2, hplen2, hp2id, hp2prompts, _, _⟩ :=
        run_minibatch_ok ctx.score ctx.ex ch.paretoSample parent1 hparent1_wf
      obtain ⟨child2, childPareto, hcr2, hclen2, hc2id, hc2prompts, _, _⟩ :=
        run_minibatch_ok ctx.score ctx.ex ch.paretoSample child1 hchild1_wf
      have hparent2_wf : promptsWF parent2 := by
        intro m hm; rw [hp2prompts]; exact hparent1_wf m hm
      have hchild2_wf : promptsWF child2 := by
        intro m hm; rw [hc2prompts]; exact hchild1_wf m hm
      have hpool2_ne := poolInsert_ne_nil (poolInsert st.pool parent1) parent2
      have hpool2_nodup := poolInsert_nodup (poolInsert st.pool parent1) parent2 hpool1_nodup
      have hpool2_wf : ∀ c ∈ poolInsert (poolInsert st.pool parent1) parent2,
          promptsWF c := fun c hc => by
        rcases poolInsert_mem _ _ c hc with h | rfl
        · exact hpool1_wf c h
        · exact hparent2_wf
      cases hdomp : dominates (aggregate_scores (childPareto.map Rollout.scores))
          (aggregate_scores (parentPareto.map Rollout.scores)) DOMINANCE_EPS with
      | true =>
        obtain ⟨hadd_ne, hadd_nodup, hadd_wf⟩ := add_candidate_inv ctx.maxSize
          (poolInsert (poolInsert st.pool parent1) parent2) child2 hmax
          hpool2_nodup hpool2_wf hchild2_wf
        obtain ⟨hens_ne, hens_nodup, hens_wf⟩ := ensure_min_pool_inv ctx.base
          ch.ensureParentIdx ch.ensureFreshIds ctx.maxSize MIN_POOL_SIZE hmax hbase
          MIN_POOL_SIZE 0
          (add_candidate ctx.maxSize (poolInsert (poolInsert st.pool parent1) parent2) child2)
          (recordsFreshEntry (recordsFreshEntry (recordsSetTopics st.records
            (stepParent ch p ps).id parentResults) child2.id childPareto)
            parent2.id parentPareto)
          hadd_ne hadd_nodup hadd_wf
        refine ⟨GepaState.mk
          (ensure_min_pool ctx.base ch.ensureParentIdx ch.ensureFreshIds
            ctx.maxSize MIN_POOL_SIZE MIN_POOL_SIZE 0
            (add_candidate ctx.maxSize (poolInsert (poolInsert st.pool parent1) parent2) child2,
             recordsFreshEntry (recordsFreshEntry (recordsSetTopics st.records
               (stepParent ch p ps).id parentResults) child2.id childPareto)
               parent2.id parentPareto)).1
          (ensure_min_pool ctx.base ch.ensureParentIdx ch.ensureFreshIds
            ctx.maxSize MIN_POOL_SIZE MIN_POOL_SIZE 0
            (add_candidate ctx.maxSize (poolInsert (poolInsert st.pool parent1) parent2) child2,
             recordsFreshEntry (recordsFreshEntry (recordsSetTopics st.records
               (stepParent ch p ps).id parentResults) child2.id childPareto)
               parent2.id parentPareto)).2
          (st.rollouts + parentResults.length + childResults.length
            + ch.paretoSample.length * 2),
          ?_, ?_, hens_ne, hens_nodup, hens_wf⟩
        · unfold gepaStep
          rw [hpool]
          simp only [hpr, hcur, hcr, hdomv, hpr2, hcr2, hdomp, Bool.true_eq_false,
            Bool.false_eq_true, if_true, if_false]
        · simp only
          omega
      | false =>
        obtain ⟨hens_ne, hens_nodup, hens_wf⟩ := ensure_min_pool_inv ctx.base
          ch.ensureParentIdx ch.ensureFreshIds ctx.maxSize MIN_POOL_SIZE hmax hbase
          MIN_POOL_SIZE 0
          (poolInsert (poolInsert st.pool parent1) parent2)
          (recordsSetTopics st.records (stepParent ch p ps).id parentResults)
          hpool2_ne hpool2_nodup hpool2_wf
        refine ⟨GepaState.mk
          (ensure_min_pool ctx.base ch.ensureParentIdx ch.ensureFreshIds
            ctx.maxSize MIN_POOL_SIZE MIN_POOL_SIZE 0
            (poolInsert (poolInsert st.pool parent1) parent2,
             recordsSetTopics st.records (stepParent ch p ps).id parentResults)).1
          (ensure_min_pool ctx.base ch.ensureParentIdx ch.ensureFreshIds
            ctx.maxSize MIN_POOL_SIZE MIN_POOL_SIZE 0
            (poolInsert (poolInsert st.pool parent1) parent2,
             recordsSetTopics st.records (stepParent ch p ps).id parentResults)).2
          (st.rollouts + parentResults.length + childResults.length
            + ch.paretoSample.length * 2),
          ?_, ?_, hens_ne, hens_nodup, hens_wf⟩
        · unfold gepaStep
          rw [hpool]
          simp only [hpr, hcur, hcr, hdomv, hpr2, hcr2, hdomp, Bool.true_eq_false,
            Bool.false_eq_true, if_true, if_false]
        · simp only
          omega

lemma gepaLoop_reaches_budget (ctx : GepaCtx) (oracle : Nat → IterChoice)
    (hmax : 1 ≤ ctx.maxSize)
    (hbase : ∀ m ∈ MODULE_NAMES, (ctx.base.lookup m).isSome)
    (hmb : ∀ k, 1 ≤ (oracle k).minibatch.length) :
    ∀ (fuel k : Nat) (st : GepaState),
      st.pool ≠ [] → (st.pool.map Candidate.id).Nodup →
      (∀ c ∈ st.pool, promptsWF c) →
      ctx.budget ≤ st.rollouts + 2 * fuel →
      ∃ stF, gepaLoop ctx oracle fuel k st = .ok stF ∧ ctx.budget ≤ stF.rollouts := by
  intro fuel
  induction fuel with
  | zero =>
    intro k st _ _ _ hfu
    refine ⟨st, ?_, by omega⟩
    unfold gepaLoop
    rw [if_pos (by omega)]
  | succ fuel ih =>
    intro k st hne hnodup hwf hfu
    unfold gepaLoop
    by_cases hb : ctx.budget ≤ st.rollouts
    · rw [if_pos hb]
      exact ⟨st, rfl, hb⟩
    · rw [if_neg hb]
      obtain ⟨st', hstep, hroll, hne', hnodup', hwf'⟩ :=
        gepaStep_progress ctx (oracle k) st hmax hbase (hmb k) hne hnodup hwf
      rw [hstep]
      exact ih (k + 1) st' hne' hnodup' hwf' (by omega)

/-- C10 (confirmed): for every positive budget, the loop of `gepa_optimize`
terminates: every iteration strictly increases `rollouts_used` by at least
two (one parent and one child evaluation on the non-empty minibatch —
`random.sample(dfeedback, min(8, len(dfeedback)))` is non-empty whenever
the topics list is), so the counter reaches the budget within `budget`
iterations; and the budget test is the only exit of the loop (the final
state always satisfies `budget ≤ rollouts_used`).  The hypotheses state
the standing assumptions of the run: a positive pool capacity, base prompts
for both modules, a non-empty topics list, pool entries with distinct ids
and complete prompt maps, and rollouts that return (an uncaught scoring
exception would abort the whole call, not exit the loop — cf. C5). -/
theorem gepa_optimize_terminates (ctx : GepaCtx) (oracle : Nat → IterChoice)
    (st0 : GepaState) (k0 : Nat)
    (hbudget : 0 < ctx.budget)
    (hmax : 1 ≤ ctx.maxSize)
    (hbase : ∀ m ∈ MODULE_NAMES, (ctx.base.lookup m).isSome)
    (hdf : ctx.dfeedbackList ≠ [])
    (hmb : ∀ k, (oracle k).minibatch.length = min MINIBATCH_SIZE ctx.dfeedbackList.length)
    (hne : st0.pool ≠ []) (hnodup : (st0.pool.map Candidate.id).Nodup)
    (hwf : ∀ c ∈ st0.pool, promptsWF c) :
    ∃ stF, gepaLoop ctx oracle ctx.budget k0 st0 = .ok stF ∧ ctx.budget ≤ stF.rollouts := by
  have hmb1 : ∀ k, 1 ≤ (oracle k).minibatch.length := by
    intro k
    rw [hmb k]
    have h1 : 1 ≤ MINIBATCH_SIZE := by norm_num [MINIBATCH_SIZE]
    have h2 : 1 ≤ ctx.dfeedbackList.length := by
      cases hl : ctx.dfeedbackList with
      | nil => exact absurd hl hdf
      | cons a as => simp
    omega
  exact gepaLoop_reaches_budget ctx oracle hmax hbase hmb1 ctx.budget k0 st0
    hne hnodup hwf (by omega)

/-- Witness for C10: the concrete stub context and a constant oracle. -/
theorem gepa_optimize_terminates_witness :
    ∃ stF, gepaLoop wCtx (fun _ => wCh) wCtx.budget 0 wSt = .ok stF ∧
      wCtx.budget ≤ stF.rollouts := by
  refine gepa_optimize_terminates wCtx (fun _ => wCh) wSt 0 ?_ ?_ ?_ ?_ ?_ ?_ ?_ ?_
  · norm_num [wCtx, ROLLOUT_BUDGET]
  · norm_num [wCtx, MAX_CANDIDATES]
  · intro m hm
    fin_cases hm <;> rfl
  · simp [wCtx]
  · intro k
    rfl
  · simp [wSt]
  · simp [wSt, candBase]
  · intro c hc
    simp only [wSt, List.mem_singleton] at hc
    subst hc
    intro m hm
    fin_cases hm <;> rfl

/-! ### Claim C5: `score_passage_and_questions` (pipeline/validators.py)

The composer mixes pure text heuristics (embedded below) with two
collaborators: `validate_by_llm` (a network call, abstracted as an oracle)
and `safe_json_loads` (abstracted as an oracle for its parse outcome; the
claim's decisive code path — no braced fragment in the questions string —
never reaches it). -/

/-- A character matched by the regex class `\w` (ASCII approximation of
Python's unicode word character). -/
def isWordChar (c : Char) : Bool :=
  c.isAlphanum || c = '_'

/-- The maximal `\w+` runs of a character list (the matches of
`re.findall(r"\b\w+\b", ...)`). -/
def wordRuns : List Char → List Char → List (List Char)
  | [], acc => if acc.isEmpty then [] else [acc.reverse]
  | c :: rest, acc =>
    if isWordChar c then wordRuns rest (c :: acc)
    else if acc.isEmpty then wordRuns rest []
    else acc.reverse :: wordRuns rest []

/-- `clean_passage_body(passage_text)`: keep only the lines whose stripped
form starts with `Text:` or `Summary:`, joined by newlines. -/
def clean_passage_body (s : String) : String :=
  String.intercalate "\n" ((s.trim.splitOn "\n").filter fun ln =>
    (ln.trim.startsWith "Text:") || (ln.trim.startsWith "Summary:"))

/-- `word_count(text)`: the `\b\w+\b` matches of the cleaned body. -/
def word_count (s : String) : Nat :=
  (wordRuns (clean_passage_body s).data []).length

/-- One attempted match of the regex `Text:\s*[A-Z]\.` at the head of the
character list; returns the remaining characters on success. -/
def matchParaMarker : List Char → Option (List Char)
  | 'T' :: 'e' :: 'x' :: 't' :: ':' :: rest =>
    match rest.dropWhile Char.isWhitespace with
    | c :: '.' :: rest' => if c.isUpper then some rest' else none
    | _ => none
  | _ => none

/-- Scanning loop of `re.findall(r"Text:\s*[A-Z]\.", body)`: count
non-overlapping matches left to right.  The fuel starts at the list length
and each step consumes at least one character, so it never runs out. -/
def countParaGo : Nat → List Char → Nat
  | 0, _ => 0
  | _ + 1, [] => 0
  | fuel + 1, c :: rest =>
    match matchParaMarker (c :: rest) with
    | some rest' => 1 + countParaGo fuel rest'
    | none => countParaGo fuel rest

/-- `paragraph_count(text)`. -/
def paragraph_count (s : String) : Nat :=
  countParaGo (clean_passage_body s).data.length (clean_passage_body s).data

/-- `validate_passage_text(passage_text)` from validators.py: word-count,
paragraph-count and summary sub-scores combined 0.5/0.3/0.2. -/
def validate_passage_text (passage_text : String) : ℚ × List String × List String :=
  let wc := word_count passage_text
  let pc := paragraph_count passage_text
  let wc_score : ℚ := max 0 (1 - |(wc : ℚ) - 900| / 900)
  let raw1 := ["word_count=" ++ toString wc]
  let fb1 :=
    if wc < 600 then ["Passage too short (" ++ toString wc ++ " words). Aim for ~900 words."]
    else if wc > 1200 then
      ["Passage too long (" ++ toString wc ++ " words). Aim for ~900 words."]
    else ["Passage length acceptable (" ++ toString wc ++ " words)."]
  let pc_score : ℚ := if 5 ≤ pc ∧ pc ≤ 9 then 1 else max 0 (1 - |(pc : ℚ) - 7| / 7)
  let raw2 := raw1 ++ ["paragraph_count=" ++ toString pc]
  let fb2 := fb1 ++
    (if pc < 5 then ["Too few paragraphs (" ++ toString pc ++ "). Target 5-9."]
     else if pc > 9 then ["Too many paragraphs (" ++ toString pc ++ "). Target 5-9."]
     else ["Paragraph count within range (" ++ toString pc ++ ")."])
  let hasSummary := strContains passage_text "Summary:"
  let sum_score : ℚ := if hasSummary then 1 else 1/2
  let raw3 := raw2 ++ [if hasSummary then "summary=present" else "summary=missing"]
  let fb3 := fb2 ++
    [if hasSummary then "Summary line present at end."
     else "Missing required summary line at end."]
  (1/2 * wc_score + 3/10 * pc_score + 1/5 * sum_score, raw3, fb3)

/-- `extractive_answer_check(passage_text, question)` from validators.py. -/
def extractive_answer_check (passage_text : String) (q : Question) : ℚ × String :=
  let ans := q.answer.getD ""
  if ans = "" then (0, "answer_empty")
  else if strContains (passage_text.toLower) (ans.toLower) then (1, "answer_span_found")
  else
    let words := ((wordRuns ans.toLower.data []).filter fun w => 3 < w.length).map
      fun w => String.mk w
    if !words.isEmpty && words.all (fun w => strContains passage_text.toLower w) then
      (3/4, "answer_words_all_present")
    else (0, "answer_missing_or_paraphrased")

/-- The prefix of `l` up to and including the last occurrence of `close`,
or `none` when `close` does not occur (the greedy `.*` of the regex). -/
def upToLast (close : Char) : List Char → Option (List Char)
  | [] => none
  | c :: rest =>
    match upToLast close rest with
    | some seg => some (c :: seg)
    | none => if c = close then some [c] else none

/-- The scan of `re.search(r'(\{.*\}|\[.*\])', s, flags=re.S)`: at each
position, try a brace match (greedy to the last closing brace), then a
bracket match, else advance. -/
def extractGo : List Char → Option (List Char)
  | [] => none
  | c :: rest =>
    if c = '\x7b' then
      match upToLast '\x7d' rest with
      | some seg => some (c :: seg)
      | none => extractGo rest
    else if c = '[' then
      match upToLast ']' rest with
      | some seg => some (c :: seg)
      | none => extractGo rest
    else extractGo rest

/-- `m.group(1)` of the braced-fragment search over the questions string. -/
def extract_braced (s : String) : Option String :=
  (extractGo s.data).map fun l => String.mk l

/-- The outcome of `safe_json_loads` on the extracted fragment, abstracted
as an oracle: the `{"__raw": ..., "__parse_error": ...}` marker dict, or a
successfully parsed questions list. -/
inductive JsonOutcome where
  | parseError
  | ok : List Question → JsonOutcome

/-- The result dict of `validate_by_llm(passage)` (an external LLM call,
abstracted as an oracle): the five category scores and the `Feedbacks`
mapping. -/
structure LlmScores where
  vocab : ℚ
  sentence : ℚ
  readability : ℚ
  content : ℚ
  authenticity : ℚ
  feedbacks : List (String × String)

/-- `questions_raw = outputs.get("questions", "")`. -/
def questionsRaw (outputs : Outputs) : PyVal :=
  (outputs.lookup "questions").getD (PyVal.str "")

/-- The questions-parsing block of `score_passage_and_questions`: a string
value goes through the braced-fragment search and `safe_json_loads`; no
fragment, or a parse error, leaves `questions = None` (modelled `none`).
A non-string value is passed through unchanged.  (The `except` arm that
would set `questions = []` guards against exceptions that the search and
`safe_json_loads` do not raise on these inputs.) -/
def parseQuestionsField (jsonLoads : String → JsonOutcome) : PyVal → Option (List Question)
  | PyVal.str s =>
    match extract_braced s with
    | some frag =>
      match jsonLoads frag with
      | JsonOutcome.parseError => none
      | JsonOutcome.ok qs => some qs
    | none => none
  | PyVal.qlist qs => some qs

/-- The `"LLM:k=v"` trace lines built from the `Feedbacks` dict. -/
def llmTraceLines (llm_scores : LlmScores) : List String :=
  llm_scores.feedbacks.map fun p => "LLM:" ++ p.1 ++ "=" ++ p.2

/-- `to_band(score_01)`: scale to 0-9 and round to the nearest half band
(Lean's `round` rounds half away from zero where Python rounds half to
even; the value only feeds trace strings). -/
def to_band (score01 : ℚ) : ℚ :=
  (round (score01 * 9 * 2) : ℤ) / 2

/-- `score_passage_and_questions(outputs, topic)` from validators.py,
parameterised by the two collaborators.  Returns the scores dict and the
`{"raw": ..., "feedback": ...}` trace dict, or `.error` for an uncaught
Python exception.  Two behaviours of the source are reproduced exactly:
the second `Feedbacks` loop appends to `raw_traces` (not `fb_traces`), and
`for q in questions:` raises `TypeError` when the parsing block left
`questions = None`. -/
def score_passage_and_questions (llm : String → LlmScores)
    (jsonLoads : String → JsonOutcome) (outputs : Outputs) (topic : String) :
    Except String (ScoreVec × List String × List String) :=
  match (outputs.lookup "passage").getD (PyVal.str "") with
  | PyVal.qlist _ => .error "AttributeError: list object has no attribute strip"
  | PyVal.str passage =>
    let questions := parseQuestionsField jsonLoads (questionsRaw outputs)
    let p := validate_passage_text passage
    let q := validate_questions_structure questions
    let llm_scores := llm passage
    let raw1 := (p.2.1.map fun t => "P:" ++ t) ++ (q.2.1.map fun t => "Q:" ++ t) ++
      llmTraceLines llm_scores
    let fb1 := (p.2.2.map fun t => "P:" ++ t) ++ (q.2.2.map fun t => "Q:" ++ t)
    let raw2 := raw1 ++ llmTraceLines llm_scores
    match questions with
    | none => .error "TypeError: NoneType object is not iterable"
    | some qs =>
      let checks := qs.map fun qq => (qq, extractive_answer_check passage qq)
      let raw3 := raw2 ++ checks.map fun c =>
        "EX:" ++ c.1.id.getD "?" ++ ":" ++ c.2.2
      let fb2 := fb1 ++ checks.map fun c =>
        "Answer validation for " ++ c.1.id.getD "?" ++ ": " ++ c.2.2
      let extract_avg : ℚ :=
        if checks.isEmpty then 0 else (checks.map fun c => c.2.1).sum / checks.length
      let scores : ScoreVec :=
        [("passage", p.1), ("questions", q.1), ("extractive", extract_avg),
         ("Vocabulary_Level", llm_scores.vocab / 10),
         ("Sentence_Length_&_Grammar_Complexity", llm_scores.sentence / 10),
         ("Authenticity_of_Style", llm_scores.authenticity / 10),
         ("Content_Balance", llm_scores.content / 10),
         ("Readability", llm_scores.readability / 10)]
      let final_score : ℚ :=
        1/5 * p.1 + 3/20 * q.1 + 1/20 * extract_avg +
        3/20 * (llm_scores.vocab / 10) + 1/10 * (llm_scores.sentence / 10) +
        1/10 * (llm_scores.readability / 10) + 1/20 * (llm_scores.content / 10) +
        1/5 * (llm_scores.authenticity / 10)
      let band := to_band final_score
      .ok (scores,
        raw3 ++ ["SCORE_BAND=" ++ toString band],
        fb2 ++ ["Overall estimated IELTS band: " ++ toString band ++ " (0-9 scale)."])

/-- A stub LLM validator used in the C5 failing-input evaluation. -/
def stubLlm : String → LlmScores :=
  fun _ => { vocab := 0, sentence := 0, readability := 0, content := 0,
             authenticity := 0, feedbacks := [] }

/-- A stub `safe_json_loads` outcome oracle (never reached on the failing
input: the string holds no braced fragment). -/
def stubJson : String → JsonOutcome := fun _ => JsonOutcome.parseError

/-- The C5 failing input: the structured-questions output is a string with
no JSON fragment at all (e.g. a model refusal). -/
def crashOutputs : Outputs :=
  [("passage", PyVal.str ""), ("questions", PyVal.str "sorry, I cannot do that")]

/-- C5 (code bug): a malformed structured questions output IS fatal.  On
the concrete outputs whose `questions` entry is an unparsable string, the
regex search finds no braced fragment, the parsing block leaves
`questions = None`, and `score_passage_and_questions` raises `TypeError`
at `for q in questions:` instead of returning a degraded score vector.
The source's own comment in that block ("handle as failure (previous logic
might have continued)") and its `except` arm (`questions = []`) show the
intent was to continue with degraded data, as the spec states. -/
theorem score_passage_and_questions_crashes :
    score_passage_and_questions stubLlm stubJson crashOutputs "topic"
      = .error "TypeError: NoneType object is not iterable" := rfl

end Gepa
